import Mathlib

/-!
Shallow embedding of the chat tool-calling orchestration core of the
n8n_be backend: the JSON value model used on the wire, the tool-call
executor (`agents/tools/executor.py`), the tool-definition cache
(`agents/tools/definitions.py`), the conversation memory manager
(`agents/memory/manager.py`), and the tool-calling orchestration loop and
streaming generator (`apps/chat/api.py`).
-/

namespace N8n

/-! ## JSON values

Model of the JSON data manipulated by the Python code via `json.loads` /
`json.dumps`.  Numbers are modelled as integers (the code only ever reads
integer token counts); floats are out of scope. -/

inductive Json where
  | null : Json
  | bool (b : Bool) : Json
  | num (n : Int) : Json
  | str (s : String) : Json
  | arr (elems : List Json) : Json
  | obj (fields : List (String × Json)) : Json

mutual

/-- Node-count size of a JSON value, used to budget parser fuel. -/
def jsonSize : Json → Nat
  | .null => 1
  | .bool _ => 1
  | .num _ => 1
  | .str _ => 1
  | .arr xs => 1 + elemsSize xs
  | .obj fs => 1 + fieldsSize fs

def elemsSize : List Json → Nat
  | [] => 1
  | x :: xs => 1 + jsonSize x + elemsSize xs

def fieldsSize : List (String × Json) → Nat
  | [] => 1
  | (_, v) :: fs => 1 + jsonSize v + fieldsSize fs

end

/-- Look a key up in a JSON object (model of Python `dict.get` on a parsed
JSON object); `none` when the value is not an object or lacks the key. -/
def objGet : Json → String → Option Json
  | .obj fields, k =>
    match fields.find? (fun f => f.1 == k) with
    | some f => some f.2
    | none => none
  | _, _ => none

/-- Python truthiness of a JSON value (`if result.data:` etc.). -/
def jsonTruthy : Json → Bool
  | .null => false
  | .bool b => b
  | .num n => n != 0
  | .str s => s != ""
  | .arr xs => !xs.isEmpty
  | .obj fs => !fs.isEmpty

/-! ## Serialization — model of `json.dumps(..., ensure_ascii=False)`

`json.dumps` uses the default separators `", "` (between items) and `": "`
(after keys).  String escaping is modelled for the quote and backslash
characters; other characters are emitted verbatim. -/

def quoteChar : Char := Char.ofNat 34

def backslashChar : Char := Char.ofNat 92

def lbrace : Char := Char.ofNat 123

def rbrace : Char := Char.ofNat 125

def lbrack : Char := Char.ofNat 91

def rbrack : Char := Char.ofNat 93

def commaChar : Char := Char.ofNat 44

def colonChar : Char := Char.ofNat 58

def spaceChar : Char := Char.ofNat 32

def minusChar : Char := Char.ofNat 45

def digitChar (n : Nat) : Char := Char.ofNat (48 + n)

/-- Decimal digits of `n`, most significant first; fuel-driven so that it
computes by kernel reduction (`natCharsGo (n+1) n` always has enough fuel). -/
def natCharsGo : Nat → Nat → List Char
  | 0, _ => []
  | f + 1, n => if n < 10 then [digitChar n] else natCharsGo f (n / 10) ++ [digitChar (n % 10)]

def natChars (n : Nat) : List Char := natCharsGo (n + 1) n

def intChars (n : Int) : List Char :=
  if n < 0 then minusChar :: natChars n.natAbs else natChars n.natAbs

def escapeChar (c : Char) : List Char :=
  if c = quoteChar ∨ c = backslashChar then [backslashChar, c] else [c]

def escapeString : List Char → List Char
  | [] => []
  | c :: cs => escapeChar c ++ escapeString cs

/-- The keyword spellings emitted for the three JSON constants. -/
def nullLit : List Char := ['n', 'u', 'l', 'l']

def trueLit : List Char := ['t', 'r', 'u', 'e']

def falseLit : List Char := ['f', 'a', 'l', 's', 'e']

mutual

/-- Characters of the serialized form of a JSON value. -/
def jsonChars : Json → List Char
  | .null => nullLit
  | .bool b => if b then trueLit else falseLit
  | .num n => intChars n
  | .str s => quoteChar :: (escapeString s.data ++ [quoteChar])
  | .arr [] => [lbrack, rbrack]
  | .arr (x :: xs) => lbrack :: ((jsonChars x ++ elemsChars xs) ++ [rbrack])
  | .obj [] => [lbrace, rbrace]
  | .obj (f :: fs) => lbrace :: ((fieldChars f ++ fieldsChars fs) ++ [rbrace])

/-- One `"key": value` item. -/
def fieldChars : String × Json → List Char
  | (k, v) =>
    (quoteChar :: (escapeString k.data ++ [quoteChar])) ++ (colonChar :: spaceChar :: jsonChars v)

/-- `", item"` for each element after the first. -/
def elemsChars : List Json → List Char
  | [] => []
  | x :: xs => commaChar :: spaceChar :: (jsonChars x ++ elemsChars xs)

/-- `", item"` for each field after the first. -/
def fieldsChars : List (String × Json) → List Char
  | [] => []
  | f :: fs => commaChar :: spaceChar :: (fieldChars f ++ fieldsChars fs)

end

/-- Serialized JSON text of a value (model of `json.dumps`). -/
def dumps (v : Json) : String := ⟨jsonChars v⟩

/-- Model of Python `str()` applied to a decoded JSON value, as used by
`ToolCallResult.to_message` for results that are not dicts or lists (the
container cases never reach `str` there; they are serialized instead). -/
def pyStr : Json → String
  | .null => "None"
  | .bool true => "True"
  | .bool false => "False"
  | .num n => ⟨intChars n⟩
  | .str s => s
  | .arr xs => ⟨jsonChars (.arr xs)⟩
  | .obj fs => ⟨jsonChars (.obj fs)⟩

/-! ## Parsing — model of `json.loads`

A fuel-driven recursive-descent parser.  Numbers are restricted to
(optionally negative) decimal integers, matching the integer-only `Json`
model. -/

def isWsChar (c : Char) : Bool :=
  c = spaceChar || c.toNat == 9 || c.toNat == 10 || c.toNat == 13

def skipWs (cs : List Char) : List Char := cs.dropWhile isWsChar

def isDigitChar (c : Char) : Bool := 48 ≤ c.toNat && c.toNat ≤ 57

def digitVal (c : Char) : Nat := c.toNat - 48

def charsToNatGo (acc : Nat) : List Char → Nat
  | [] => acc
  | c :: cs => charsToNatGo (acc * 10 + digitVal c) cs

def charsToNat (cs : List Char) : Nat := charsToNatGo 0 cs

/-- Parse the remainder of a string literal (after the opening quote),
returning the unescaped characters and the input after the closing quote. -/
def parseStringAux : List Char → Option (List Char × List Char)
  | [] => none
  | c :: rest =>
    if c = quoteChar then some ([], rest)
    else if c = backslashChar then
      match rest with
      | [] => none
      | d :: rest2 =>
        if d = quoteChar ∨ d = backslashChar then
          match parseStringAux rest2 with
          | some (s, r) => some (d :: s, r)
          | none => none
        else none
    else
      match parseStringAux rest with
      | some (s, r) => some (c :: s, r)
      | none => none
termination_by structural cs => cs

/-- Match a literal character sequence, returning the remaining input. -/
def dropLit : List Char → List Char → Option (List Char)
  | [], cs => some cs
  | _ :: _, [] => none
  | p :: ps, c :: cs => if c = p then dropLit ps cs else none

/-- Parse a nonempty run of digits as a natural number. -/
def parseNatPart (cs : List Char) : Option (Nat × List Char) :=
  let ds := cs.takeWhile isDigitChar
  if ds.isEmpty then none else some (charsToNat ds, cs.dropWhile isDigitChar)

/-- Parser modes: a single value, the fields of an object after `{` (first
field not yet consumed), or the elements of an array after `[`. -/
inductive PMode where
  | value : PMode
  | fields : PMode
  | elems : PMode

def parseCore : Nat → PMode → List Char → Option (Json × List Char)
  | 0, _, _ => none
  | fuel + 1, .value, cs =>
    match skipWs cs with
    | [] => none
    | c :: rest =>
      if c = quoteChar then
        match parseStringAux rest with
        | some (s, r) => some (.str ⟨s⟩, r)
        | none => none
      else if c = lbrace then
        match skipWs rest with
        | [] => none
        | c2 :: rest2 =>
          if c2 = rbrace then some (.obj [], rest2)
          else parseCore fuel .fields (c2 :: rest2)
      else if c = lbrack then
        match skipWs rest with
        | [] => none
        | c2 :: rest2 =>
          if c2 = rbrack then some (.arr [], rest2)
          else parseCore fuel .elems (c2 :: rest2)
      else if c = 'n' then
        match dropLit ['u', 'l', 'l'] rest with
        | some r => some (.null, r)
        | none => none
      else if c = 't' then
        match dropLit ['r', 'u', 'e'] rest with
        | some r => some (.bool true, r)
        | none => none
      else if c = 'f' then
        match dropLit ['a', 'l', 's', 'e'] rest with
        | some r => some (.bool false, r)
        | none => none
      else if c = minusChar then
        match parseNatPart rest with
        | some (n, r) => some (.num (-(n : Int)), r)
        | none => none
      else if isDigitChar c then
        match parseNatPart (c :: rest) with
        | some (n, r) => some (.num (n : Int), r)
        | none => none
      else none
  | fuel + 1, .fields, cs =>
    match skipWs cs with
    | [] => none
    | c :: rest =>
      if c = quoteChar then
        match parseStringAux rest with
        | some (k, r1) =>
          match skipWs r1 with
          | [] => none
          | c2 :: r2 =>
            if c2 = colonChar then
              match parseCore fuel .value r2 with
              | some (v, r3) =>
                (match skipWs r3 with
                 | [] => none
                 | c3 :: r4 =>
                   if c3 = commaChar then
                     match parseCore fuel .fields r4 with
                     | some (.obj fs, r5) => some (.obj ((⟨k⟩, v) :: fs), r5)
                     | _ => none
                   else if c3 = rbrace then some (.obj [(⟨k⟩, v)], r4)
                   else none)
              | none => none
            else none
        | none => none
      else none
  | fuel + 1, .elems, cs =>
    match parseCore fuel .value cs with
    | some (v, r1) =>
      (match skipWs r1 with
       | [] => none
       | c2 :: r2 =>
         if c2 = commaChar then
           match parseCore fuel .elems r2 with
           | some (.arr xs, r3) => some (.arr (v :: xs), r3)
           | _ => none
         else if c2 = rbrack then some (.arr [v], r2)
         else none)
    | none => none

/-- Model of `json.loads`: parse a complete JSON document (allowing
trailing whitespace, as Python does). -/
def parse (s : String) : Option Json :=
  match parseCore (2 * s.data.length + 2) .value s.data with
  | some (v, r) => if skipWs r = [] then some v else none
  | none => none

/-! ## Round-trip lemmas: `parse (dumps v) = some v` -/

theorem stringMk_data (s : String) : (⟨s.data⟩ : String) = s := rfl

theorem digit_toNat {c : Char} (h : isDigitChar c = true) :
    48 ≤ c.toNat ∧ c.toNat ≤ 57 := by
  simp only [isDigitChar, Bool.and_eq_true, decide_eq_true_eq] at h
  exact h

theorem isWsChar_of_digit {c : Char} (h : isDigitChar c = true) : isWsChar c = false := by
  obtain ⟨h1, h2⟩ := digit_toNat h
  have hs : ¬ c = spaceChar := by rintro rfl; exact absurd h1 (by decide)
  simp only [isWsChar, Bool.or_eq_false_iff, beq_eq_false_iff_ne, decide_eq_false_iff_not]
  exact ⟨⟨⟨hs, by omega⟩, by omega⟩, by omega⟩

theorem toNat_digitChar {n : Nat} (h : n < 10) : (digitChar n).toNat = 48 + n := by
  interval_cases n <;> decide

theorem isDigitChar_digitChar {n : Nat} (h : n < 10) : isDigitChar (digitChar n) = true := by
  interval_cases n <;> decide

theorem digitVal_digitChar {n : Nat} (h : n < 10) : digitVal (digitChar n) = n := by
  interval_cases n <;> decide

theorem natCharsGo_head {f n : Nat} (h : n < f) :
    ∃ c t, natCharsGo f n = c :: t ∧ isDigitChar c = true := by
  induction f generalizing n with
  | zero => omega
  | succ f ih =>
    rw [natCharsGo]
    by_cases h10 : n < 10
    · exact ⟨digitChar n, [], by rw [if_pos h10], isDigitChar_digitChar h10⟩
    · rw [if_neg h10]
      obtain ⟨c, t, hct, hd⟩ := ih (n := n / 10) (by omega)
      exact ⟨c, t ++ [digitChar (n % 10)], by rw [hct]; rfl, hd⟩

theorem natCharsGo_digits {f n : Nat} (h : n < f) :
    ∀ c ∈ natCharsGo f n, isDigitChar c = true := by
  induction f generalizing n with
  | zero => omega
  | succ f ih =>
    rw [natCharsGo]
    by_cases h10 : n < 10
    · rw [if_pos h10]
      intro c hc
      rw [List.mem_singleton] at hc
      exact hc ▸ isDigitChar_digitChar h10
    · rw [if_neg h10]
      intro c hc
      rcases List.mem_append.mp hc with hc | hc
      · exact ih (by omega) c hc
      · rw [List.mem_singleton] at hc
        exact hc ▸ isDigitChar_digitChar (Nat.mod_lt _ (by omega))

theorem charsToNatGo_append (acc : Nat) (l1 l2 : List Char) :
    charsToNatGo acc (l1 ++ l2) = charsToNatGo (charsToNatGo acc l1) l2 := by
  induction l1 generalizing acc with
  | nil => rfl
  | cons c cs ih => exact ih (acc * 10 + digitVal c)

theorem charsToNatGo_natCharsGo {f n : Nat} (h : n < f) (acc : Nat) :
    charsToNatGo acc (natCharsGo f n) = acc * 10 ^ (natCharsGo f n).length + n := by
  induction f generalizing n acc with
  | zero => omega
  | succ f ih =>
    rw [natCharsGo]
    by_cases h10 : n < 10
    · rw [if_pos h10]
      have h1 : charsToNatGo acc [digitChar n] = acc * 10 + digitVal (digitChar n) := rfl
      rw [h1, digitVal_digitChar h10, List.length_singleton, pow_one]
    · rw [if_neg h10]
      rw [charsToNatGo_append, ih (by omega)]
      have hd : charsToNatGo (acc * 10 ^ (natCharsGo f (n / 10)).length + n / 10)
          [digitChar (n % 10)] =
          (acc * 10 ^ (natCharsGo f (n / 10)).length + n / 10) * 10 +
            digitVal (digitChar (n % 10)) := rfl
      rw [hd, digitVal_digitChar (Nat.mod_lt _ (by omega)), List.length_append,
        List.length_singleton]
      have hdm : n / 10 * 10 + n % 10 = n := by omega
      calc (acc * 10 ^ (natCharsGo f (n / 10)).length + n / 10) * 10 + n % 10
          = acc * (10 ^ (natCharsGo f (n / 10)).length * 10) + (n / 10 * 10 + n % 10) := by
            ring
        _ = acc * 10 ^ ((natCharsGo f (n / 10)).length + 1) + n := by rw [hdm, pow_succ]

theorem charsToNat_natChars (n : Nat) : charsToNat (natChars n) = n := by
  rw [charsToNat, natChars, charsToNatGo_natCharsGo (Nat.lt_succ_self n)]
  simp

theorem parseStringAux_round (cs rest : List Char) :
    parseStringAux (escapeString cs ++ (quoteChar :: rest)) = some (cs, rest) := by
  induction cs with
  | nil =>
    show parseStringAux (quoteChar :: rest) = _
    rw [parseStringAux.eq_def]
    simp
  | cons c cs ih =>
    by_cases hc : c = quoteChar ∨ c = backslashChar
    · have he : escapeString (c :: cs) = backslashChar :: c :: escapeString cs := by
        rw [escapeString, escapeChar, if_pos hc]; rfl
      rw [he, List.cons_append, List.cons_append, parseStringAux.eq_def]
      dsimp only
      rw [if_neg (by decide : ¬ (backslashChar = quoteChar)), if_pos rfl]
      rw [if_pos hc, ih]
    · have he : escapeString (c :: cs) = c :: escapeString cs := by
        rw [escapeString, escapeChar, if_neg hc]; rfl
      push_neg at hc
      rw [he, List.cons_append, parseStringAux.eq_def]
      dsimp only
      rw [if_neg hc.1, if_neg hc.2, ih]

theorem jsonSize_pos (v : Json) : 1 ≤ jsonSize v := by
  cases v <;> simp only [jsonSize] <;> omega

theorem elemsSize_pos (xs : List Json) : 1 ≤ elemsSize xs := by
  cases xs <;> simp only [elemsSize] <;> omega

theorem fieldsSize_pos (fs : List (String × Json)) : 1 ≤ fieldsSize fs := by
  cases fs with
  | nil => simp [fieldsSize]
  | cons f fs => cases f; simp only [fieldsSize]; omega

/-- The input does not begin with a decimal digit (so a greedy digit scan
stops exactly at its head). -/
def NoDigitHead : List Char → Prop
  | [] => True
  | c :: _ => isDigitChar c = false

theorem skipWs_cons (c : Char) (h : isWsChar c = false) (t : List Char) :
    skipWs (c :: t) = c :: t := by
  simp [skipWs, List.dropWhile_cons, h]

theorem skipWs_space (cs : List Char) : skipWs (spaceChar :: cs) = skipWs cs := by
  simp [skipWs, List.dropWhile_cons, show isWsChar spaceChar = true from by decide]

theorem natChars_head (n : Nat) :
    ∃ c t, natChars n = c :: t ∧ isDigitChar c = true :=
  natCharsGo_head (Nat.lt_succ_self n)

theorem natChars_digits (n : Nat) : ∀ c ∈ natChars n, isDigitChar c = true :=
  natCharsGo_digits (Nat.lt_succ_self n)

theorem takeWhile_digits_append {l r : List Char}
    (hl : ∀ c ∈ l, isDigitChar c = true) (hr : NoDigitHead r) :
    (l ++ r).takeWhile isDigitChar = l ∧ (l ++ r).dropWhile isDigitChar = r := by
  induction l with
  | nil =>
    simp only [List.nil_append]
    cases r with
    | nil => simp
    | cons c t =>
      have hc : isDigitChar c = false := hr
      simp [List.takeWhile_cons, List.dropWhile_cons, hc]
  | cons c l ih =>
    have hc : isDigitChar c = true := hl c (List.mem_cons_self c l)
    have hrest := ih (fun d hd => hl d (List.mem_cons_of_mem c hd))
    simp [List.takeWhile_cons, List.dropWhile_cons, hc, hrest.1, hrest.2]

theorem parseNatPart_round (m : Nat) {rest : List Char} (hr : NoDigitHead rest) :
    parseNatPart (natChars m ++ rest) = some (m, rest) := by
  obtain ⟨tk, dp⟩ := takeWhile_digits_append (natChars_digits m) hr
  obtain ⟨c, t, hct, _⟩ := natChars_head m
  have hne : (natChars m).isEmpty = false := by rw [hct]; rfl
  simp only [parseNatPart, tk, dp, hne, Bool.false_eq_true, if_false,
    charsToNat_natChars]

theorem jsonChars_head (v : Json) :
    ∃ c t, jsonChars v = c :: t ∧ isWsChar c = false ∧
      ¬ (c = rbrack) ∧ ¬ (c = rbrace) := by
  cases v with
  | null => exact ⟨'n', ['u', 'l', 'l'], by simp [jsonChars, nullLit], by decide, by decide, by decide⟩
  | bool b =>
    cases b with
    | true =>
      exact ⟨'t', ['r', 'u', 'e'], by simp [jsonChars, trueLit], by decide, by decide, by decide⟩
    | false =>
      exact ⟨'f', ['a', 'l', 's', 'e'], by simp [jsonChars, falseLit], by decide, by decide, by decide⟩
  | num n =>
    by_cases hn : n < 0
    · refine ⟨minusChar, natChars n.natAbs, ?_, by decide, by decide, by decide⟩
      simp [jsonChars, intChars, if_pos hn]
    · obtain ⟨c, t, hct, hd⟩ := natChars_head n.natAbs
      obtain ⟨h48, h57⟩ := digit_toNat hd
      refine ⟨c, t, ?_, isWsChar_of_digit hd, ?_, ?_⟩
      · simp [jsonChars, intChars, if_neg hn, hct]
      · rintro rfl; exact absurd h57 (by decide)
      · rintro rfl; exact absurd h57 (by decide)
  | str s =>
    exact ⟨quoteChar, escapeString s.data ++ [quoteChar], by simp [jsonChars],
      by decide, by decide, by decide⟩
  | arr xs =>
    cases xs with
    | nil => exact ⟨lbrack, [rbrack], by simp [jsonChars], by decide, by decide, by decide⟩
    | cons x xs =>
      exact ⟨lbrack, jsonChars x ++ (elemsChars xs ++ [rbrack]), by simp [jsonChars],
        by decide, by decide, by decide⟩
  | obj fs =>
    cases fs with
    | nil => exact ⟨lbrace, [rbrace], by simp [jsonChars], by decide, by decide, by decide⟩
    | cons f fs =>
      exact ⟨lbrace, fieldChars f ++ (fieldsChars fs ++ [rbrace]), by simp [jsonChars],
        by decide, by decide, by decide⟩

theorem parseCore_value_ws (fuel : Nat) (cs : List Char) :
    parseCore fuel .value (spaceChar :: cs) = parseCore fuel .value cs := by
  cases fuel with
  | zero => rfl
  | succ fuel => rw [parseCore, parseCore, skipWs_space]

theorem parseCore_fields_ws (fuel : Nat) (cs : List Char) :
    parseCore fuel .fields (spaceChar :: cs) = parseCore fuel .fields cs := by
  cases fuel with
  | zero => rfl
  | succ fuel => rw [parseCore, parseCore, skipWs_space]

theorem parseCore_elems_ws (fuel : Nat) (cs : List Char) :
    parseCore fuel .elems (spaceChar :: cs) = parseCore fuel .elems cs := by
  cases fuel with
  | zero => rfl
  | succ fuel => rw [parseCore, parseCore, parseCore_value_ws]

theorem digit_not_special {c : Char} (h : isDigitChar c = true) :
    ¬ c = quoteChar ∧ ¬ c = lbrace ∧ ¬ c = lbrack ∧ ¬ c = 'n' ∧ ¬ c = 't' ∧ ¬ c = 'f' ∧
      ¬ c = minusChar := by
  obtain ⟨h48, h57⟩ := digit_toNat h
  refine ⟨?_, ?_, ?_, ?_, ?_, ?_, ?_⟩ <;> rintro rfl <;> revert h48 h57 <;> decide

theorem noDigitHead_fieldsTail (fs : List (String × Json)) (rest : List Char) :
    NoDigitHead (fieldsChars fs ++ (rbrace :: rest)) := by
  cases fs with
  | nil =>
    rw [show fieldsChars ([] : List (String × Json)) = [] from by simp [fieldsChars],
      List.nil_append]
    exact (by decide : isDigitChar rbrace = false)
  | cons g gs =>
    rw [show fieldsChars (g :: gs) =
      commaChar :: spaceChar :: (fieldChars g ++ fieldsChars gs) from by simp [fieldsChars]]
    exact (by decide : isDigitChar commaChar = false)

theorem noDigitHead_elemsTail (xs : List Json) (rest : List Char) :
    NoDigitHead (elemsChars xs ++ (rbrack :: rest)) := by
  cases xs with
  | nil =>
    rw [show elemsChars ([] : List Json) = [] from by simp [elemsChars], List.nil_append]
    exact (by decide : isDigitChar rbrack = false)
  | cons y ys =>
    rw [show elemsChars (y :: ys) =
      commaChar :: spaceChar :: (jsonChars y ++ elemsChars ys) from by simp [elemsChars]]
    exact (by decide : isDigitChar commaChar = false)

/-- Serialize-then-parse round trip, one parser mode at a time. -/
theorem parseCore_round (fuel : Nat) :
    (∀ v rest, jsonSize v ≤ fuel → NoDigitHead rest →
      parseCore fuel .value (jsonChars v ++ rest) = some (v, rest)) ∧
    (∀ k x fs rest, fieldsSize ((k, x) :: fs) ≤ fuel →
      parseCore fuel .fields (fieldChars (k, x) ++ (fieldsChars fs ++ (rbrace :: rest))) =
        some (.obj ((k, x) :: fs), rest)) ∧
    (∀ x xs rest, elemsSize (x :: xs) ≤ fuel →
      parseCore fuel .elems (jsonChars x ++ (elemsChars xs ++ (rbrack :: rest))) =
        some (.arr (x :: xs), rest)) := by
  induction fuel with
  | zero =>
    refine ⟨fun v rest hs _ => absurd hs (by have := jsonSize_pos v; omega),
      fun k x fs rest hs => absurd hs ?_, fun x xs rest hs => absurd hs ?_⟩
    · have := jsonSize_pos x
      have := fieldsSize_pos fs
      simp only [fieldsSize]
      omega
    · have := jsonSize_pos x
      have := elemsSize_pos xs
      simp only [elemsSize]
      omega
  | succ fuel ih =>
    obtain ⟨ihv, ihf, ihe⟩ := ih
    refine ⟨?_, ?_, ?_⟩
    · -- value mode
      intro v rest hs hr
      rw [parseCore]
      cases v with
      | null =>
        rw [show jsonChars Json.null = ['n', 'u', 'l', 'l'] from by simp [jsonChars, nullLit]]
        simp only [List.cons_append, List.nil_append]
        rw [skipWs_cons 'n' (by decide)]
        dsimp only
        rw [if_neg (by decide), if_neg (by decide), if_neg (by decide), if_pos rfl]
        have hd : dropLit ['u', 'l', 'l'] ('u' :: 'l' :: 'l' :: rest) = some rest := by
          simp [dropLit]
        rw [hd]
      | bool b =>
        cases b with
        | true =>
          rw [show jsonChars (Json.bool true) = ['t', 'r', 'u', 'e'] from by simp [jsonChars, trueLit]]
          simp only [List.cons_append, List.nil_append]
          rw [skipWs_cons 't' (by decide)]
          dsimp only
          rw [if_neg (by decide), if_neg (by decide), if_neg (by decide), if_neg (by decide),
            if_pos rfl]
          have hd : dropLit ['r', 'u', 'e'] ('r' :: 'u' :: 'e' :: rest) = some rest := by
            simp [dropLit]
          rw [hd]
        | false =>
          rw [show jsonChars (Json.bool false) = ['f', 'a', 'l', 's', 'e'] from by
            simp [jsonChars, falseLit]]
          simp only [List.cons_append, List.nil_append]
          rw [skipWs_cons 'f' (by decide)]
          dsimp only
          rw [if_neg (by decide), if_neg (by decide), if_neg (by decide), if_neg (by decide),
            if_neg (by decide), if_pos rfl]
          have hd : dropLit ['a', 'l', 's', 'e'] ('a' :: 'l' :: 's' :: 'e' :: rest) =
              some rest := by
            simp [dropLit]
          rw [hd]
      | num n =>
        rw [show jsonChars (Json.num n) = intChars n from by simp [jsonChars], intChars]
        by_cases hn : n < 0
        · rw [if_pos hn, List.cons_append, skipWs_cons minusChar (by decide)]
          dsimp only
          rw [if_neg (by decide), if_neg (by decide), if_neg (by decide), if_neg (by decide),
            if_neg (by decide), if_neg (by decide), if_pos rfl]
          rw [parseNatPart_round _ hr]
          dsimp only
          have hv : -((n.natAbs : Nat) : Int) = n := by omega
          rw [hv]
        · rw [if_neg hn]
          obtain ⟨c, t, hct, hd⟩ := natChars_head n.natAbs
          obtain ⟨hq, hbr, hbk, hn', ht', hf', hm⟩ := digit_not_special hd
          rw [hct, List.cons_append, skipWs_cons c (isWsChar_of_digit hd)]
          dsimp only
          rw [if_neg hq, if_neg hbr, if_neg hbk, if_neg hn', if_neg ht', if_neg hf',
            if_neg hm, if_pos hd]
          rw [← List.cons_append, ← hct, parseNatPart_round _ hr]
          dsimp only
          have hv : ((n.natAbs : Nat) : Int) = n := by omega
          rw [hv]
      | str s =>
        rw [show jsonChars (Json.str s) = quoteChar :: (escapeString s.data ++ [quoteChar])
          from by simp [jsonChars]]
        rw [List.cons_append, skipWs_cons quoteChar (by decide)]
        dsimp only
        rw [if_pos rfl]
        rw [show (escapeString s.data ++ [quoteChar]) ++ rest =
          escapeString s.data ++ (quoteChar :: rest) from by simp]
        rw [parseStringAux_round]
      | arr xs =>
        cases xs with
        | nil =>
          rw [show jsonChars (Json.arr []) = [lbrack, rbrack] from by simp [jsonChars]]
          simp only [List.cons_append, List.nil_append]
          rw [skipWs_cons lbrack (by decide)]
          dsimp only
          rw [if_neg (by decide), if_neg (by decide), if_pos rfl]
          rw [skipWs_cons rbrack (by decide)]
          dsimp only
          rw [if_pos rfl]
        | cons x xs =>
          rw [show jsonChars (Json.arr (x :: xs)) ++ rest =
            lbrack :: (jsonChars x ++ (elemsChars xs ++ (rbrack :: rest))) from by
              simp [jsonChars]]
          rw [skipWs_cons lbrack (by decide)]
          dsimp only
          rw [if_neg (by decide), if_neg (by decide), if_pos rfl]
          obtain ⟨c, t, hct, hws, hnb, _⟩ := jsonChars_head x
          rw [hct, List.cons_append, skipWs_cons c hws]
          dsimp only
          rw [if_neg hnb]
          rw [← List.cons_append, ← hct]
          exact ihe x xs rest (by simp only [jsonSize] at hs; omega)
      | obj fs =>
        cases fs with
        | nil =>
          rw [show jsonChars (Json.obj []) = [lbrace, rbrace] from by simp [jsonChars]]
          simp only [List.cons_append, List.nil_append]
          rw [skipWs_cons lbrace (by decide)]
          dsimp only
          rw [if_neg (by decide), if_pos rfl]
          rw [skipWs_cons rbrace (by decide)]
          dsimp only
          rw [if_pos rfl]
        | cons f fs =>
          obtain ⟨k, x⟩ := f
          rw [show jsonChars (Json.obj ((k, x) :: fs)) ++ rest =
            lbrace :: (fieldChars (k, x) ++ (fieldsChars fs ++ (rbrace :: rest))) from by
              simp [jsonChars]]
          rw [skipWs_cons lbrace (by decide)]
          dsimp only
          rw [if_neg (by decide), if_pos rfl]
          have ht0 : fieldChars (k, x) ++ (fieldsChars fs ++ (rbrace :: rest)) =
              quoteChar :: ((escapeString k.data ++ [quoteChar]) ++
                ((colonChar :: spaceChar :: jsonChars x) ++
                  (fieldsChars fs ++ (rbrace :: rest)))) := by
            simp [fieldChars]
          rw [ht0, skipWs_cons quoteChar (by decide)]
          dsimp only
          rw [if_neg (by decide : ¬ (quoteChar = rbrace))]
          rw [← ht0]
          exact ihf k x fs rest (by simp only [jsonSize] at hs; omega)
    · -- fields mode
      intro k x fs rest hs
      rw [parseCore]
      have hfc : fieldChars (k, x) ++ (fieldsChars fs ++ (rbrace :: rest)) =
          quoteChar :: (escapeString k.data ++ (quoteChar :: (colonChar :: spaceChar ::
            (jsonChars x ++ (fieldsChars fs ++ (rbrace :: rest)))))) := by
        simp [fieldChars]
      rw [hfc, skipWs_cons quoteChar (by decide)]
      dsimp only
      rw [if_pos rfl, parseStringAux_round]
      dsimp only
      rw [skipWs_cons colonChar (by decide)]
      dsimp only
      rw [if_pos rfl, parseCore_value_ws]
      simp only [fieldsSize] at hs
      rw [ihv x (fieldsChars fs ++ (rbrace :: rest))
        (by have := fieldsSize_pos fs; omega) (noDigitHead_fieldsTail fs rest)]
      dsimp only
      cases fs with
      | nil =>
        rw [show fieldsChars ([] : List (String × Json)) ++ (rbrace :: rest) =
          rbrace :: rest from by simp [fieldsChars]]
        rw [skipWs_cons rbrace (by decide)]
        dsimp only
        rw [if_neg (by decide : ¬ (rbrace = commaChar)), if_pos rfl]
      | cons g gs =>
        obtain ⟨k2, x2⟩ := g
        rw [show fieldsChars ((k2, x2) :: gs) ++ (rbrace :: rest) =
          commaChar :: spaceChar ::
            (fieldChars (k2, x2) ++ (fieldsChars gs ++ (rbrace :: rest))) from by
              simp [fieldsChars]]
        rw [skipWs_cons commaChar (by decide)]
        dsimp only
        rw [if_pos rfl, parseCore_fields_ws]
        rw [ihf k2 x2 gs rest (by simp only [fieldsSize] at hs ⊢; have := jsonSize_pos x; omega)]
    · -- elems mode
      intro x xs rest hs
      rw [parseCore]
      simp only [elemsSize] at hs
      rw [ihv x (elemsChars xs ++ (rbrack :: rest))
        (by have := elemsSize_pos xs; omega) (noDigitHead_elemsTail xs rest)]
      dsimp only
      cases xs with
      | nil =>
        rw [show elemsChars ([] : List Json) ++ (rbrack :: rest) = rbrack :: rest from by
          simp [elemsChars]]
        rw [skipWs_cons rbrack (by decide)]
        dsimp only
        rw [if_neg (by decide : ¬ (rbrack = commaChar)), if_pos rfl]
      | cons y ys =>
        rw [show elemsChars (y :: ys) ++ (rbrack :: rest) =
          commaChar :: spaceChar :: (jsonChars y ++ (elemsChars ys ++ (rbrack :: rest)))
          from by simp [elemsChars]]
        rw [skipWs_cons commaChar (by decide)]
        dsimp only
        rw [if_pos rfl, parseCore_elems_ws]
        rw [ihe y ys rest (by simp only [elemsSize] at hs ⊢; have := jsonSize_pos x; omega)]

mutual

theorem jsonSize_le : ∀ v : Json, jsonSize v ≤ 2 * (jsonChars v).length
  | .null => by simp [jsonSize, jsonChars, nullLit]
  | .bool b => by cases b <;> simp [jsonSize, jsonChars, trueLit, falseLit]
  | .num n => by
    simp only [jsonSize, jsonChars]
    by_cases hn : n < 0
    · simp [intChars, hn]
      omega
    · obtain ⟨c, t, hct, -⟩ := natChars_head n.natAbs
      simp [intChars, hn, hct]
      omega
  | .str s => by
    simp [jsonSize, jsonChars]
    omega
  | .arr [] => by simp [jsonSize, elemsSize, jsonChars]
  | .arr (x :: xs) => by
    have h1 := jsonSize_le x
    have h2 := elemsSize_le xs
    simp only [jsonSize, elemsSize, jsonChars, List.length_cons, List.length_append,
      List.length_singleton]
    omega
  | .obj [] => by simp [jsonSize, fieldsSize, jsonChars]
  | .obj ((k, x) :: fs) => by
    have h1 := jsonSize_le x
    have h2 := fieldsSize_le fs
    simp only [jsonSize, fieldsSize, jsonChars, fieldChars, List.length_cons,
      List.length_append, List.length_singleton]
    omega

theorem elemsSize_le : ∀ xs : List Json, elemsSize xs ≤ 2 * (elemsChars xs).length + 2
  | [] => by simp [elemsSize, elemsChars]
  | x :: xs => by
    have h1 := jsonSize_le x
    have h2 := elemsSize_le xs
    simp only [elemsSize, elemsChars, List.length_cons, List.length_append]
    omega

theorem fieldsSize_le : ∀ fs : List (String × Json),
    fieldsSize fs ≤ 2 * (fieldsChars fs).length + 2
  | [] => by simp [fieldsSize, fieldsChars]
  | (k, x) :: fs => by
    have h1 := jsonSize_le x
    have h2 := fieldsSize_le fs
    simp only [fieldsSize, fieldsChars, fieldChars, List.length_cons, List.length_append,
      List.length_singleton]
    omega

end

/-- `json.loads (json.dumps v) = v`: full round trip. -/
theorem parse_dumps (v : Json) : parse (dumps v) = some v := by
  have hdata : (dumps v).data = jsonChars v := rfl
  simp only [parse, hdata]
  have h := (parseCore_round (2 * (jsonChars v).length + 2)).1 v []
    (by have := jsonSize_le v; omega) trivial
  rw [List.append_nil] at h
  rw [h]
  simp [skipWs]

/-! ## Tool executor — `agents/tools/executor.py` -/

/-- Result of an MCP tool call (`MCPToolResult` dataclass in
`agents/mcp/client.py`). -/
structure MCPToolResult where
  success : Bool
  data : Option Json := none
  error : Option String := none

/-- The serialized `arguments` member of an LLM tool call: usually a JSON
string, but the code also accepts an already-decoded value, mirroring the
`isinstance(arguments_str, str)` branch of `execute_single`. -/
inductive ArgPayload where
  | str (s : String) : ArgPayload
  | json (j : Json) : ArgPayload

structure ToolFunction where
  name : String := ""
  arguments : ArgPayload := .str "\x7b\x7d"

structure ToolCall where
  id : String := ""
  function : ToolFunction := {}

/-- `ToolCallResult` dataclass (executor.py lines 17-24). -/
structure ToolCallResult where
  tool_name : String
  tool_call_id : String
  success : Bool
  result : Option Json := none
  error : Option String := none

/-- A chat-protocol message as the code builds them: role, content, and the
optional tool fields. -/
structure Msg where
  role : String
  content : String := ""
  tool_call_id : Option String := none
  tool_calls : List ToolCall := []

/-- `ToolCallResult.to_message` (executor.py lines 26-37): on success the
content is `json.dumps(result)` for dict/list results and `str(result)`
otherwise (`None` when the result is absent); on failure it is
`json.dumps({"error": error})`. -/
def ToolCallResult.to_message (r : ToolCallResult) : Msg :=
  let content :=
    if r.success then
      match r.result with
      | some (Json.obj fs) => dumps (Json.obj fs)
      | some (Json.arr xs) => dumps (Json.arr xs)
      | some j => pyStr j
      | none => "None"
    else
      dumps (Json.obj [("error",
        match r.error with
        | some e => Json.str e
        | none => Json.null)])
  { role := "tool", tool_call_id := some r.tool_call_id, content := content }

/-- The MCP client as the executor sees it: `mcp_client.call_tool(name,
arguments)` either returns an `MCPToolResult` or raises (modelled as
`Except.error` carrying the exception text). -/
def ExecEnv := String → Json → Except String MCPToolResult

/-- `ToolExecutor.execute_single` (executor.py lines 80-128): parse the
arguments (a parse failure yields a failed result without contacting the
server), call the server, and catch any raised exception into a failed
result. -/
def execute_single (env : ExecEnv) (tool_call : ToolCall) : ToolCallResult :=
  let tool_call_id := tool_call.id
  let tool_name := tool_call.function.name
  match (match tool_call.function.arguments with
         | .str s => parse s
         | .json j => some j) with
  | none =>
    { tool_name := tool_name, tool_call_id := tool_call_id, success := false,
      error := some "Invalid JSON arguments" }
  | some arguments =>
    match env tool_name arguments with
    | .error e =>
      { tool_name := tool_name, tool_call_id := tool_call_id, success := false,
        error := some e }
    | .ok result =>
      { tool_name := tool_name, tool_call_id := tool_call_id, success := result.success,
        result := result.data, error := result.error }

/-- `ToolExecutor.execute_tool_calls` (executor.py lines 58-78): a
sequential loop appending `execute_single` of each call, in order. -/
def execute_tool_calls (env : ExecEnv) (tool_calls : List ToolCall) : List ToolCallResult :=
  tool_calls.map (execute_single env)


/-! ## Tool catalog cache — `agents/tools/definitions.py` -/

/-- The `_FALLBACK_TOOLS` constant (definitions.py lines 18-82): the static
tool set served when the MCP server cannot provide one. -/
def FALLBACK_TOOLS : List Json := [
  Json.obj [
    ("type", Json.str "function"),
    ("function", Json.obj [
      ("name", Json.str "search_n8n_nodes"),
      ("description", Json.str "Tìm kiếm các node n8n phù hợp với yêu cầu. Trả về thông tin chi tiết về nodes bao gồm displayName, description, category và hướng dẫn sử dụng. Sử dụng khi cần tìm node để thực hiện một tác vụ cụ thể như gửi email, gọi API, xử lý dữ liệu, đăng bài lên mạng xã hội, etc."),
      ("parameters", Json.obj [
        ("type", Json.str "object"),
        ("properties", Json.obj [
          ("query", Json.obj [
            ("type", Json.str "string"),
            ("description", Json.str "Từ khóa tìm kiếm (tiếng Anh). Ví dụ: 'send email', 'http request', 'google sheets', 'telegram', 'facebook post'")])]),
        ("required", Json.arr [Json.str "query"])])])],
  Json.obj [
    ("type", Json.str "function"),
    ("function", Json.obj [
      ("name", Json.str "list_node_categories"),
      ("description", Json.str "Liệt kê tất cả các category của nodes trong n8n. Sử dụng khi muốn khám phá các loại node có sẵn."),
      ("parameters", Json.obj [
        ("type", Json.str "object"),
        ("properties", Json.obj [])])])],
  Json.obj [
    ("type", Json.str "function"),
    ("function", Json.obj [
      ("name", Json.str "get_nodes_by_category"),
      ("description", Json.str "Lấy danh sách nodes trong một category cụ thể. Ví dụ: 'Marketing', 'Communication', 'Data & Storage'"),
      ("parameters", Json.obj [
        ("type", Json.str "object"),
        ("properties", Json.obj [
          ("category", Json.obj [
            ("type", Json.str "string"),
            ("description", Json.str "Tên category. Ví dụ: 'Communication', 'Marketing', 'Data & Storage'")])]),
        ("required", Json.arr [Json.str "category"])])])]]

/-- `_convert_mcp_tool_to_llm_format` (definitions.py lines 88-116):
wraps a native MCP tool entry into the OpenAI function-calling shape, with
`dict.get` defaults for missing fields. -/
def convert_mcp_tool_to_llm_format (mcp_tool : Json) : Json :=
  Json.obj [
    ("type", Json.str "function"),
    ("function", Json.obj [
      ("name", (objGet mcp_tool "name").getD (Json.str "")),
      ("description", (objGet mcp_tool "description").getD (Json.str "")),
      ("parameters", (objGet mcp_tool "inputSchema").getD
        (Json.obj [("type", Json.str "object"), ("properties", Json.obj [])]))])]

/-- Outcome of `client.list_tools()` as `_load_tools_from_mcp` sees it:
either the call raised, or it returned an `MCPToolResult`. -/
inductive MCPCallOutcome where
  | raised (e : String) : MCPCallOutcome
  | returned (r : MCPToolResult) : MCPCallOutcome

def isObj : Json → Bool
  | .obj _ => true
  | _ => false

/-- Python `for x in v`: lists yield their elements, strings their
characters, dicts their keys; other values raise `TypeError` (`none`). -/
def pyIterate : Json → Option (List Json)
  | .arr xs => some xs
  | .str s => some (s.data.map fun c => Json.str ⟨[c]⟩)
  | .obj fs => some (fs.map fun f => Json.str f.1)
  | _ => none

/-- `_load_tools_from_mcp` (definitions.py lines 119-141).  The `try`
wraps everything, so any raised exception — including `TypeError` from
iterating a non-iterable `"tools"` value and `AttributeError` from
converting a non-dict entry — lands in the fallback branch.  The function
is total: it never raises to its caller. -/
def load_tools_from_mcp (outcome : MCPCallOutcome) : List Json :=
  match outcome with
  | .raised _ => FALLBACK_TOOLS
  | .returned result =>
    match result.data with
    | none => FALLBACK_TOOLS
    | some tools_data =>
      if result.success && jsonTruthy tools_data then
        match tools_data with
        | Json.obj fields =>
          match objGet (Json.obj fields) "tools" with
          | none => FALLBACK_TOOLS
          | some toolsVal =>
            match pyIterate toolsVal with
            | none => FALLBACK_TOOLS
            | some mcp_tools =>
              if mcp_tools.all isObj then
                mcp_tools.map convert_mcp_tool_to_llm_format
              else FALLBACK_TOOLS
        | _ => FALLBACK_TOOLS
      else FALLBACK_TOOLS

/-- `get_tool_definitions` (definitions.py lines 144-176), as a transformer
of the module-global `_cached_tools` (`none` = never populated).  `fetch`
is the value `_load_tools_from_mcp` would produce if it were actually run.
`runningLoop` says whether the calling thread already has a running event
loop — true inside the `async def` chat endpoints (api.py lines 257 and
308).  On the fetch path the code reaches `loop.run_until_complete`
(lines 162-173) with no surrounding `try`: with a running loop,
`asyncio.get_event_loop()` returns that loop (the `except RuntimeError`
branch is not taken) and `run_until_complete` raises
`RuntimeError: This event loop is already running` before the coroutine
executes, so nothing is fetched and line 175 never updates the cache;
with no running loop, either branch runs the coroutine to completion on a
non-running loop.  Returns the result (or that uncaught error), the new
cache state, and whether the MCP server was consulted.  The cache guard
is `if _cached_tools and not force_reload`, i.e. truthiness: an empty
cached list does not count as populated. -/
def get_tool_definitions (fetch : List Json) (force_reload : Bool)
    (runningLoop : Bool) (cached_tools : Option (List Json)) :
    Except String (List Json) × Option (List Json) × Bool :=
  match cached_tools with
  | some ts =>
    if !ts.isEmpty && !force_reload then (.ok ts, some ts, false)
    else if runningLoop then
      (.error "This event loop is already running", some ts, false)
    else (.ok fetch, some fetch, true)
  | none =>
    if runningLoop then
      (.error "This event loop is already running", none, false)
    else (.ok fetch, some fetch, true)


/-! ## Conversation memory — `agents/memory/manager.py` -/

/-- `MemoryConfig` dataclass (manager.py lines 13-18). -/
structure MemoryConfig where
  max_messages : Nat := 10
  summarize_after : Nat := 20
  include_summary : Bool := true

/-- A persisted chat message row (`ChatMessage`), with its creation
timestamp (`created_at`) as a natural number. -/
structure StoredMsg where
  conversation_id : String
  role : String
  content : String
  created_at : Nat

/-- A persisted conversation row (`ChatConversation`), with the optional
`summary` attribute read via `getattr`. -/
structure ConversationRec where
  id : String
  summary : Option String := none

/-- "More recent or equal": the descending-`created_at` order used to model
Django's `order_by("-created_at")`. -/
def recentFirst (a b : StoredMsg) : Prop := b.created_at ≤ a.created_at

instance : DecidableRel recentFirst := fun a b => Nat.decLe b.created_at a.created_at

instance : IsTotal StoredMsg recentFirst := ⟨fun a b => Nat.le_total b.created_at a.created_at⟩

instance : IsTrans StoredMsg recentFirst := ⟨fun _ _ _ h1 h2 => Nat.le_trans h2 h1⟩

/-- The dict returned by `get_conversation_context`. -/
structure MemoryContext where
  conversation : Option ConversationRec
  messages : List StoredMsg
  summary : Option String

/-- `MemoryManager.get_conversation_context` (manager.py lines 34-85).
Django's `filter(conversation_id=...).order_by("-created_at")[:max]` is
modelled as filtering the message store, sorting by descending
`created_at`, and taking the prefix; `messages.reverse()` then restores
chronological (oldest-first) order. -/
def get_conversation_context (config : MemoryConfig)
    (conversations : List ConversationRec) (store : List StoredMsg)
    (conversation_id : Option String) : MemoryContext :=
  match conversation_id with
  | none => { conversation := none, messages := [], summary := none }
  | some cid =>
    match conversations.find? (fun c => c.id == cid) with
    | none => { conversation := none, messages := [], summary := none }
    | some conversation =>
      let messages :=
        ((List.insertionSort recentFirst
            (store.filter (fun m => m.conversation_id == cid))).take
          config.max_messages).reverse
      { conversation := some conversation,
        messages := messages,
        summary := if config.include_summary then conversation.summary else none }

/-- `MemoryManager.should_summarize` (manager.py lines 105-107). -/
def should_summarize (config : MemoryConfig) (message_count : Nat) : Bool :=
  config.summarize_after < message_count

/-! ## Orchestration loop — `apps/chat/api.py` (non-streaming path) -/

/-- `MAX_TOOL_ITERATIONS` (api.py line 72). -/
def MAX_TOOL_ITERATIONS : Nat := 10

/-- Token usage counters of one LLM response (`response["usage"]`), with
missing fields defaulting to 0 as `.get(..., 0)` does. -/
structure Usage where
  prompt_tokens : Int := 0
  completion_tokens : Int := 0
  total_tokens : Int := 0
deriving DecidableEq

/-- The parts of a non-streamed LLM response the code reads:
`response["choices"][0]["message"]` (content, tool calls) and the usage.
A missing or null `content` is modelled as `""`, matching
`message.get("content", "") or ""` on every path that stores it. -/
structure LLMResponse where
  content : String := ""
  tool_calls : List ToolCall := []
  usage : Usage := {}

/-- The LLM provider as `process_tool_calls` sees it (every call assumed to
return HTTP 200; a non-2xx raises out of the whole endpoint).  The `Bool`
argument records whether tool definitions were included in the request
(`tools = get_tool_definitions() if iteration + 1 < MAX_TOOL_ITERATIONS
else None`). -/
def LLMEnv := Bool → List Msg → LLMResponse

/-- `process_tool_calls` (api.py lines 211-267).  Note the accumulated
usage: the Python sums the three counters into the local `usage` dict —
which belongs to the *current* `response` — and then recurses on
`new_response`, whose own usage dict was never updated; the accumulated
values are therefore dropped on every recursive step. -/
def process_tool_calls (env : ExecEnv) (llm : LLMEnv)
    (messages : List Msg) (response : LLMResponse) (iteration : Nat) :
    String × Usage :=
  let tool_calls := response.tool_calls
  let usage := response.usage
  if h : tool_calls.isEmpty ∨ MAX_TOOL_ITERATIONS ≤ iteration then
    (response.content, usage)
  else
    let tool_results := execute_tool_calls env tool_calls
    let new_messages :=
      (messages ++
        [{ role := "assistant", content := response.content, tool_calls := tool_calls }]) ++
      tool_results.map ToolCallResult.to_message
    let tools_included : Bool := iteration + 1 < MAX_TOOL_ITERATIONS
    let new_response := llm tools_included new_messages
    process_tool_calls env llm new_messages new_response (iteration + 1)
termination_by MAX_TOOL_ITERATIONS + 1 - iteration
decreasing_by
  push_neg at h
  omega

/-- The number of tool-execution rounds `process_tool_calls` performs:
same recursion, counting the `execute_tool_calls` invocations. -/
def toolRounds (env : ExecEnv) (llm : LLMEnv)
    (messages : List Msg) (response : LLMResponse) (iteration : Nat) : Nat :=
  let tool_calls := response.tool_calls
  if h : tool_calls.isEmpty ∨ MAX_TOOL_ITERATIONS ≤ iteration then 0
  else
    let tool_results := execute_tool_calls env tool_calls
    let new_messages :=
      (messages ++
        [{ role := "assistant", content := response.content, tool_calls := tool_calls }]) ++
      tool_results.map ToolCallResult.to_message
    let tools_included : Bool := iteration + 1 < MAX_TOOL_ITERATIONS
    let new_response := llm tools_included new_messages
    1 + toolRounds env llm new_messages new_response (iteration + 1)
termination_by MAX_TOOL_ITERATIONS + 1 - iteration
decreasing_by
  push_neg at h
  omega

/-- The response on which `process_tool_calls` terminates (the last LLM
response of the run). -/
def finalResponse (env : ExecEnv) (llm : LLMEnv)
    (messages : List Msg) (response : LLMResponse) (iteration : Nat) : LLMResponse :=
  let tool_calls := response.tool_calls
  if h : tool_calls.isEmpty ∨ MAX_TOOL_ITERATIONS ≤ iteration then response
  else
    let tool_results := execute_tool_calls env tool_calls
    let new_messages :=
      (messages ++
        [{ role := "assistant", content := response.content, tool_calls := tool_calls }]) ++
      tool_results.map ToolCallResult.to_message
    let tools_included : Bool := iteration + 1 < MAX_TOOL_ITERATIONS
    let new_response := llm tools_included new_messages
    finalResponse env llm new_messages new_response (iteration + 1)
termination_by MAX_TOOL_ITERATIONS + 1 - iteration
decreasing_by
  push_neg at h
  omega

/-- Componentwise sum of usage records (what "accumulated usage" should
mean, per the spec and the code comment `# Accumulate usage`). -/
def usageSum (us : List Usage) : Usage :=
  { prompt_tokens := (us.map (·.prompt_tokens)).sum,
    completion_tokens := (us.map (·.completion_tokens)).sum,
    total_tokens := (us.map (·.total_tokens)).sum }

/-- The usage records of every LLM response seen by a `process_tool_calls`
run, in order. -/
def roundUsages (env : ExecEnv) (llm : LLMEnv)
    (messages : List Msg) (response : LLMResponse) (iteration : Nat) : List Usage :=
  let tool_calls := response.tool_calls
  if h : tool_calls.isEmpty ∨ MAX_TOOL_ITERATIONS ≤ iteration then [response.usage]
  else
    let tool_results := execute_tool_calls env tool_calls
    let new_messages :=
      (messages ++
        [{ role := "assistant", content := response.content, tool_calls := tool_calls }]) ++
      tool_results.map ToolCallResult.to_message
    let tools_included : Bool := iteration + 1 < MAX_TOOL_ITERATIONS
    let new_response := llm tools_included new_messages
    response.usage :: roundUsages env llm new_messages new_response (iteration + 1)
termination_by MAX_TOOL_ITERATIONS + 1 - iteration
decreasing_by
  push_neg at h
  omega


/-! ## Streaming multiplexer — `apps/chat/api.py`, `chat_stream.generate`
(lines 385-620) -/

/-- The server-sent events `generate()` yields (`data: {json}` payload
shapes; the float `cost` member of the `done`/usage payload is derived
from `estimatedTokens` and not modelled separately). -/
inductive Event where
  | content (chunk : String) : Event
  | status (message : String) : Event
  | done (conversationId : String) (estimatedTokens : Int) : Event
  | error (message : String) : Event
deriving DecidableEq

/-- `for i in range(0, len(content), chunk_size)` with `chunk_size = 20`
(api.py lines 453-456). -/
def chunksOf20 (cs : List Char) : List (List Char) :=
  if h : cs = [] then [] else cs.take 20 :: chunksOf20 (cs.drop 20)
termination_by cs.length
decreasing_by
  have hpos : 0 < cs.length := List.length_pos.mpr h
  rw [List.length_drop]
  omega

/-- The `"data: "` prefix checked by `line.startswith("data: ")`. -/
def dataTag : List Char := ['d', 'a', 't', 'a', ':', ' ']

/-- Reading `chunk["usage"]` (api.py lines 592-593): `some d` means the
running total is increased by `d`; `none` means nothing is added — either
the key is absent, or reading/adding the value raises and kills the rest
of the loop body (there is nothing after it, so the effect is the same). -/
def usageOf (chunk : Json) : Option Int :=
  match objGet chunk "usage" with
  | none => none
  | some (Json.obj ufields) =>
    match objGet (Json.obj ufields) "total_tokens" with
    | some (Json.num n) => some n
    | some (Json.bool b) => some (if b then 1 else 0)
    | some _ => none
    | none => some 0
  | some _ => none

/-- The effect of one line of the streamed response (api.py lines
568-596). -/
inductive LineEffect where
  | stop : LineEffect
  | skip : LineEffect
  | chunkData (content : Option String) (usage : Option Int) : LineEffect

/-- Per-line dispatch of the streaming read loop: non-`data:` lines are
ignored, `[DONE]` breaks, unparseable JSON is skipped, and any exception
while digging into the chunk skips the line (`except ...: continue`).
`content` is a `some` only for a non-empty string delta; a truthy
non-string delta raises at `full_response += content` before the yield, so
the whole line is skipped. -/
def lineEffect (line : String) : LineEffect :=
  match dropLit dataTag line.data with
  | none => .skip
  | some restChars =>
    if (⟨restChars⟩ : String) = "[DONE]" then .stop
    else
      match parse ⟨restChars⟩ with
      | none => .skip
      | some chunk =>
        match (objGet chunk "choices").getD (Json.arr []) with
        | Json.arr (choice0 :: _) =>
          match choice0 with
          | Json.obj _ =>
            match (objGet choice0 "delta").getD (Json.obj []) with
            | Json.obj deltaFields =>
              match (objGet (Json.obj deltaFields) "content").getD (Json.str "") with
              | Json.str s =>
                .chunkData (if s = "" then none else some s) (usageOf chunk)
              | Json.null => .chunkData none (usageOf chunk)
              | Json.bool false => .chunkData none (usageOf chunk)
              | Json.num n =>
                if n = 0 then .chunkData none (usageOf chunk) else .skip
              | Json.arr [] => .chunkData none (usageOf chunk)
              | Json.obj [] => .chunkData none (usageOf chunk)
              | _ => .skip
            | _ => .skip
          | _ => .skip
        | _ => .skip

/-- The streaming read loop (api.py lines 568-597): accumulates
`full_response` and `total_tokens`, emitting one content event per
non-empty delta, until `[DONE]` or the end of the stream. -/
def streamFold : List String → String → Int → List Event × String × Int
  | [], full, total => ([], full, total)
  | line :: lines, full, total =>
    match lineEffect line with
    | .stop => ([], full, total)
    | .skip => streamFold lines full total
    | .chunkData contentOpt usageOpt =>
      let full2 := match contentOpt with | some s => full ++ s | none => full
      let total2 := total + usageOpt.getD 0
      let (evs, full3, total3) := streamFold lines full2 total2
      ((match contentOpt with | some s => [Event.content s] | none => []) ++ evs,
        full3, total3)

/-- Crude model of `len(str(api_messages_final))`, used only in the token
estimate fallback (api.py line 601); no claim depends on its exact value. -/
def msgReprLen (msgs : List Msg) : Nat :=
  2 + (msgs.map (fun m => m.role.length + m.content.length + 24)).sum

/-- `total_tokens = len(full_response) // 4 + len(str(api_messages_final)) // 4`
(api.py lines 600-601). -/
def estimateTokens (full : String) (msgs : List Msg) : Int :=
  Int.ofNat (full.length / 4 + msgReprLen msgs / 4)

/-- One non-streamed LLM reply inside `generate()`: HTTP status plus the
decoded response. -/
structure LLMReply where
  status : Nat := 200
  response : LLMResponse := {}

/-- The environment of one `chat_stream` request: the tool-execution
backend, the non-streamed LLM endpoint, the line stream of the final
streamed call, the `MCP_ENABLED` flag, the conversation id (always
present: the endpoint creates the conversation before `generate()` runs),
and the prompt-builder output `api_messages`. -/
structure StreamEnv where
  exec : ExecEnv
  respond : List Msg → LLMReply
  streamLines : List Msg → List String
  mcp_enabled : Bool
  conversationId : String
  api_messages : List Msg

/-- The observable outcome of one `generate()` run: the ordered events
yielded, the persisted assistant messages as (content, tokens_used)
pairs, and the `user.token_balance` decrements applied. -/
structure GenOutput where
  events : List Event
  saved : List (String × Int)
  deductions : List Int
deriving DecidableEq

/-- The system message injected when the bound is hit with no content yet
(api.py lines 529-533). -/
def forceFinalPrompt : String :=
  "You have reached the maximum number of tool calls. Please provide your final answer now without calling any more tools. Include the workflow in ```n8n-workflow format if applicable."

/-- `f"Đang tìm kiếm thông tin... (bước \x7biteration + 1\x7d)"` (api.py line 483). -/
def statusMsg (iteration : Nat) : String :=
  "Đang tìm kiếm thông tin... (bước " ++ toString (iteration + 1) ++ ")"

/-- The final streamed call and everything after it (api.py lines
542-616): stream the text-only completion, estimate tokens if none were
reported, persist the assistant message, deduct credits when the total is
nonzero, and emit the terminating `done` event. -/
def finalStream (env : StreamEnv) (messagesFinal : List Msg) (full : String) (total : Int)
    (events : List Event) : GenOutput :=
  let folded := streamFold (env.streamLines messagesFinal) full total
  let total3 := if folded.2.2 = 0 then estimateTokens folded.2.1 messagesFinal else folded.2.2
  { events := (events ++ folded.1) ++ [Event.done env.conversationId total3],
    saved := [(folded.2.1, total3)],
    deductions := if total3 = 0 then [] else [Int.fdiv total3 10] }

/-- The tool-calling `while iteration < MAX_TOOL_ITERATIONS` loop of
`generate()` (api.py lines 404-534), including the post-loop forcing
message and the hand-off to the final streamed call. -/
def chatStreamLoop (env : StreamEnv) (messages : List Msg) (iteration : Nat)
    (full : String) (total : Int) (events : List Event) : GenOutput :=
  if h : MAX_TOOL_ITERATIONS ≤ iteration then
    let messagesFinal :=
      if MAX_TOOL_ITERATIONS ≤ iteration ∧ full = "" then
        messages ++ [{ role := "system", content := forceFinalPrompt }]
      else messages
    finalStream env messagesFinal full total events
  else
    let reply := env.respond messages
    if reply.status ≠ 200 then
      { events := events ++ [Event.error "API error"], saved := [], deductions := [] }
    else
      let message := reply.response
      let tool_calls := message.tool_calls
      let content := message.content
      let total2 := total + message.usage.total_tokens
      let full2 := if content ≠ "" then full ++ content else full
      let events2 :=
        if content ≠ "" then
          events ++ (chunksOf20 content.data).map (fun c => Event.content ⟨c⟩)
        else events
      if tool_calls.isEmpty then
        if full2 ≠ "" then
          { events := events2 ++ [Event.done env.conversationId total2],
            saved := [(full2, total2)],
            deductions := if total2 = 0 then [] else [Int.fdiv total2 10] }
        else
          finalStream env messages full2 total2 events2
      else
        let events3 := events2 ++ [Event.status (statusMsg iteration)]
        let tool_results := execute_tool_calls env.exec tool_calls
        let messages2 :=
          (messages ++
            [{ role := "assistant", content := content, tool_calls := tool_calls }]) ++
          tool_results.map ToolCallResult.to_message
        chatStreamLoop env messages2 (iteration + 1) full2 total2 events3
termination_by MAX_TOOL_ITERATIONS - iteration
decreasing_by
  push_neg at h
  omega

/-- The body of `chat_stream.generate()` (api.py lines 385-620), under the
assumption that no unexpected exception escapes (that path yields a single
`error` event and ends the stream).  Tool definitions are fetched but only
forwarded inside the request body, which `respond` abstracts. -/
def generate (env : StreamEnv) : GenOutput :=
  if env.mcp_enabled then
    chatStreamLoop env env.api_messages 0 "" 0 []
  else
    finalStream env env.api_messages "" 0 []

/-! ## Claims about the tool executor -/


/-- Decoding of the `arguments` payload as `execute_single` performs it. -/
def decodeArgs : ArgPayload → Option Json
  | .str s => parse s
  | .json j => some j

theorem execute_single_decode (env : ExecEnv) (tc : ToolCall) :
    execute_single env tc =
      match decodeArgs tc.function.arguments with
      | none =>
        { tool_name := tc.function.name, tool_call_id := tc.id, success := false,
          error := some "Invalid JSON arguments" }
      | some arguments =>
        match env tc.function.name arguments with
        | .error e =>
          { tool_name := tc.function.name, tool_call_id := tc.id, success := false,
            error := some e }
        | .ok result =>
          { tool_name := tc.function.name, tool_call_id := tc.id, success := result.success,
            result := result.data, error := result.error } := by
  cases tc with
  | mk id f =>
    cases f with
    | mk name args =>
      cases args <;> rfl

theorem execute_single_ids (env : ExecEnv) (tc : ToolCall) :
    (execute_single env tc).tool_call_id = tc.id ∧
      (execute_single env tc).tool_name = tc.function.name := by
  rw [execute_single_decode]
  cases hd : decodeArgs tc.function.arguments with
  | none => simp
  | some args => cases he : env tc.function.name args <;> simp [hd, he]

/-- C3: `execute_tool_calls` returns exactly one result per input call, in
input order (the i-th result is `execute_single` of the i-th call, carrying
that call's id and tool name); a parse failure or a raised tool-server
error at position i yields a failed result at position i without aborting
the batch — the function is total, so no exception reaches the caller. -/
theorem claim_C3_execute_batch_order (env : ExecEnv) (calls : List ToolCall) :
    (execute_tool_calls env calls).length = calls.length ∧
    (∀ i (h1 : i < calls.length) (h2 : i < (execute_tool_calls env calls).length),
      (execute_tool_calls env calls).get ⟨i, h2⟩ = execute_single env (calls.get ⟨i, h1⟩)) ∧
    (∀ i (h1 : i < calls.length) (h2 : i < (execute_tool_calls env calls).length),
      ((execute_tool_calls env calls).get ⟨i, h2⟩).tool_call_id = (calls.get ⟨i, h1⟩).id) ∧
    (∀ i (h1 : i < calls.length) (h2 : i < (execute_tool_calls env calls).length),
      decodeArgs (calls.get ⟨i, h1⟩).function.arguments = none →
        ((execute_tool_calls env calls).get ⟨i, h2⟩).success = false) ∧
    (∀ i (h1 : i < calls.length) (h2 : i < (execute_tool_calls env calls).length),
      ∀ args e, decodeArgs (calls.get ⟨i, h1⟩).function.arguments = some args →
        env (calls.get ⟨i, h1⟩).function.name args = .error e →
        ((execute_tool_calls env calls).get ⟨i, h2⟩).success = false ∧
          ((execute_tool_calls env calls).get ⟨i, h2⟩).error = some e) := by
  have hget : ∀ i (h1 : i < calls.length) (h2 : i < (execute_tool_calls env calls).length),
      (execute_tool_calls env calls).get ⟨i, h2⟩ = execute_single env (calls.get ⟨i, h1⟩) := by
    intro i h1 h2
    simp [execute_tool_calls]
  refine ⟨by simp [execute_tool_calls], hget, ?_, ?_, ?_⟩
  · intro i h1 h2
    rw [hget i h1 h2]
    exact (execute_single_ids env _).1
  · intro i h1 h2 hdec
    rw [hget i h1 h2, execute_single_decode, hdec]
  · intro i h1 h2 args e hdec henv
    rw [hget i h1 h2, execute_single_decode, hdec]
    dsimp only
    rw [henv]
    exact ⟨rfl, rfl⟩

def w3Env : ExecEnv := fun name _ =>
  if name = "boom" then .error "server exploded" else .ok { success := true }

def w3Good : ToolCall :=
  { id := "call_1", function := { name := "t1", arguments := .str "\x7b\x7d" } }

def w3Bad : ToolCall :=
  { id := "call_2", function := { name := "t2", arguments := .str "not json" } }

def w3Err : ToolCall :=
  { id := "call_3", function := { name := "boom", arguments := .json Json.null } }

/-- Witness for C3 at a concrete three-call batch with one parse failure
and one raised server error. -/
theorem claim_C3_witness :
    (execute_tool_calls w3Env [w3Good, w3Bad, w3Err]).length = 3 ∧
    ((execute_tool_calls w3Env [w3Good, w3Bad, w3Err]).get ⟨1, by simp [execute_tool_calls]⟩).success = false ∧
    ((execute_tool_calls w3Env [w3Good, w3Bad, w3Err]).get ⟨2, by simp [execute_tool_calls]⟩).error = some "server exploded" := by
  obtain ⟨hlen, hget, hid, hparse, herr⟩ := claim_C3_execute_batch_order w3Env [w3Good, w3Bad, w3Err]
  refine ⟨by simpa using hlen, ?_, ?_⟩
  · exact hparse 1 (by decide) (by simp [execute_tool_calls])
      (by simp [decodeArgs, w3Bad]; rfl)
  · exact (herr 2 (by decide) (by simp [execute_tool_calls]) Json.null "server exploded"
      (by simp [decodeArgs, w3Err]) (by simp [w3Err, w3Env])).2


/-- C4: a tool call whose serialized arguments string is not valid JSON
yields `success = false` with the fixed error `"Invalid JSON arguments"`,
and the result is the same for every tool-server environment — the server
is never consulted. -/
theorem claim_C4_invalid_json_no_server (env : ExecEnv) (tc : ToolCall) (s : String)
    (hargs : tc.function.arguments = .str s) (hparse : parse s = none) :
    execute_single env tc =
      { tool_name := tc.function.name, tool_call_id := tc.id, success := false,
        error := some "Invalid JSON arguments" } := by
  rw [execute_single_decode, show decodeArgs tc.function.arguments = none from by
    rw [hargs]; exact hparse]

/-- Witness for C4 at a concrete malformed call: the result is identical
under two different environments, one of which always raises. -/
theorem claim_C4_witness :
    execute_single w3Env w3Bad =
      { tool_name := "t2", tool_call_id := "call_2", success := false,
        error := some "Invalid JSON arguments" } ∧
    execute_single (fun _ _ => .error "never reached") w3Bad =
      { tool_name := "t2", tool_call_id := "call_2", success := false,
        error := some "Invalid JSON arguments" } :=
  ⟨claim_C4_invalid_json_no_server w3Env w3Bad "not json" rfl rfl,
   claim_C4_invalid_json_no_server (fun _ _ => .error "never reached") w3Bad "not json" rfl rfl⟩

/-- C8: `to_message` produces a role `"tool"` message carrying the
originating call id; for a successful dict result the content JSON-parses
back to that dict, and for a failed result with an error message the
content parses to `{"error": <message>}`. -/
theorem claim_C8_to_message_round_trip (r : ToolCallResult) :
    (r.to_message).role = "tool" ∧
    (r.to_message).tool_call_id = some r.tool_call_id ∧
    (r.success = true → ∀ fs, r.result = some (Json.obj fs) →
      parse (r.to_message).content = some (Json.obj fs)) ∧
    (r.success = false → ∀ e, r.error = some e →
      parse (r.to_message).content = some (Json.obj [("error", Json.str e)])) := by
  refine ⟨rfl, rfl, ?_, ?_⟩
  · intro hs fs hr
    show parse (if r.success then _ else _) = _
    rw [if_pos (by rw [hs]), hr]
    exact parse_dumps (Json.obj fs)
  · intro hs e he
    show parse (if r.success then _ else _) = _
    rw [if_neg (by rw [hs]; exact Bool.false_ne_true), he]
    exact parse_dumps (Json.obj [("error", Json.str e)])

def w8Ok : ToolCallResult :=
  { tool_name := "search_nodes", tool_call_id := "call_9", success := true,
    result := some (Json.obj [("count", Json.num 2), ("query", Json.str "send email")]) }

def w8Fail : ToolCallResult :=
  { tool_name := "search_nodes", tool_call_id := "call_10", success := false,
    error := some "timeout after 30s" }

/-- Witness for C8 at one successful dict result and one failed result. -/
theorem claim_C8_witness :
    parse (w8Ok.to_message).content =
      some (Json.obj [("count", Json.num 2), ("query", Json.str "send email")]) ∧
    parse (w8Fail.to_message).content =
      some (Json.obj [("error", Json.str "timeout after 30s")]) :=
  ⟨(claim_C8_to_message_round_trip w8Ok).2.2.1 rfl _ rfl,
   (claim_C8_to_message_round_trip w8Fail).2.2.2 rfl _ rfl⟩

/-! ## Claims about the tool catalog cache -/


/-- A `tools/list` outcome that is a failure or malformed: the call raised,
or reported failure, or carried no/falsy data, or data that is not a dict
with a `"tools"` key holding a list of dicts. -/
def malformedOutcome : MCPCallOutcome → Bool
  | .raised _ => true
  | .returned r =>
    match r.data with
    | none => true
    | some d =>
      !r.success || !jsonTruthy d ||
      !(match d with
        | Json.obj _ =>
          match objGet d "tools" with
          | some (Json.arr tools) => tools.all isObj
          | _ => false
        | _ => false)

/-- The exceptional corner of `_load_tools_from_mcp`: the `"tools"` member
is a non-list value Python iterates to zero items, so the comprehension
silently yields the empty tool list instead of reaching the fallback. -/
def emptyIterableToolsCorner (outcome : MCPCallOutcome) : Prop :=
  ∃ r fields, outcome = .returned r ∧ r.data = some (Json.obj fields) ∧
    (objGet (Json.obj fields) "tools" = some (Json.obj []) ∨
      objGet (Json.obj fields) "tools" = some (Json.str ""))

theorem load_tools_malformed (outcome : MCPCallOutcome)
    (h : malformedOutcome outcome = true) :
    load_tools_from_mcp outcome = FALLBACK_TOOLS ∨
    (load_tools_from_mcp outcome = [] ∧ emptyIterableToolsCorner outcome) := by
  cases outcome with
  | raised e => exact Or.inl rfl
  | returned r =>
    rcases hd : r.data with _ | d
    · exact Or.inl (by rw [load_tools_from_mcp, hd])
    · by_cases hs : (r.success && jsonTruthy d) = true
      · rcases d with _ | b | n | s | xs | fields
        · exact absurd hs (by simp [jsonTruthy])
        · exact Or.inl (by rw [load_tools_from_mcp, hd]; simp [hs])
        · exact Or.inl (by rw [load_tools_from_mcp, hd]; simp [hs])
        · exact Or.inl (by rw [load_tools_from_mcp, hd]; simp [hs])
        · exact Or.inl (by rw [load_tools_from_mcp, hd]; simp [hs])
        · rcases ht : objGet (Json.obj fields) "tools" with _ | tv
          · exact Or.inl (by rw [load_tools_from_mcp, hd]; simp only [hs, if_true, ht])
          · rcases tv with _ | b2 | n2 | s2 | txs | tfs
            · exact Or.inl (by
                rw [load_tools_from_mcp, hd]
                simp only [hs, if_true, ht, pyIterate])
            · exact Or.inl (by
                rw [load_tools_from_mcp, hd]
                simp only [hs, if_true, ht, pyIterate])
            · exact Or.inl (by
                rw [load_tools_from_mcp, hd]
                simp only [hs, if_true, ht, pyIterate])
            · cases hsc : s2.data with
              | nil =>
                have hs2 : s2 = "" := congrArg String.mk hsc
                refine Or.inr ⟨?_, r, fields, rfl, hd, Or.inr (by rw [ht, hs2])⟩
                rw [load_tools_from_mcp, hd]
                simp only [hs, if_true, ht, pyIterate, hsc]
                rfl
              | cons c cs =>
                refine Or.inl ?_
                rw [load_tools_from_mcp, hd]
                simp only [hs, if_true, ht, pyIterate, hsc]
                simp [isObj]
            · refine Or.inl ?_
              rw [load_tools_from_mcp, hd]
              have hs' := hs
              rw [Bool.and_eq_true] at hs'
              have hex : ∃ x ∈ txs, isObj x = false := by
                rw [malformedOutcome] at h
                simp only [hd, ht] at h
                simpa [hs'.1, hs'.2] using h
              have hbad : txs.all isObj = false := by
                rw [List.all_eq_false]
                simpa using hex
              simp only [hs, if_true, ht, pyIterate, hbad]
              simp
            · cases tfs with
              | nil =>
                refine Or.inr ⟨?_, r, fields, rfl, hd, Or.inl (by rw [ht])⟩
                rw [load_tools_from_mcp, hd]
                simp only [hs, if_true, ht, pyIterate]
                rfl
              | cons f0 tfs =>
                refine Or.inl ?_
                rw [load_tools_from_mcp, hd]
                simp only [hs, if_true, ht, pyIterate]
                simp [isObj]
      · refine Or.inl ?_
        rw [load_tools_from_mcp, hd]
        simp [hs]


/-- C7 counterexample: in the `async def` chat endpoints the calling
thread has a running event loop, so a call with an unpopulated cache
takes the fetch path and `loop.run_until_complete` raises
`RuntimeError: This event loop is already running` before any fetch —
with the tool server unreachable, `get_tool_definitions` raises to its
caller instead of returning the static fallback, and the cache stays
unpopulated. -/
theorem claim_C7_counterexample :
    get_tool_definitions (load_tools_from_mcp (.raised "connection refused"))
        false true none =
      (.error "This event loop is already running", none, false) := rfl

/-- C7 (amended): a call that needs to fetch (here: unpopulated cache)
from a thread with a running event loop — as in the async chat endpoints
— raises `RuntimeError` without contacting the server and without
touching the cache.  With no running loop, every failed or malformed
`tools/list` outcome yields the static fallback set without raising,
except when the malformed `"tools"` member is an empty non-list iterable
(empty dict or empty string), in which case the empty tool list is
returned, still without raising. -/
theorem claim_C7_fallback_on_failure (outcome : MCPCallOutcome)
    (h : malformedOutcome outcome = true) :
    (get_tool_definitions (load_tools_from_mcp outcome) false true none =
      (.error "This event loop is already running", none, false)) ∧
    (((get_tool_definitions (load_tools_from_mcp outcome) false false none).1 =
        .ok FALLBACK_TOOLS ∧ load_tools_from_mcp outcome = FALLBACK_TOOLS) ∨
     ((get_tool_definitions (load_tools_from_mcp outcome) false false none).1 = .ok [] ∧
        load_tools_from_mcp outcome = [] ∧ emptyIterableToolsCorner outcome)) := by
  have hget : ∀ f : List Json, (get_tool_definitions f false false none).1 = .ok f :=
    fun _ => rfl
  refine ⟨rfl, ?_⟩
  rcases load_tools_malformed outcome h with h1 | ⟨h1, h2⟩
  · exact Or.inl ⟨by rw [hget, h1], h1⟩
  · exact Or.inr ⟨by rw [hget, h1], h1, h2⟩

/-- Witness for C7 at a concrete unreachable-server outcome, in both
calling contexts. -/
theorem claim_C7_witness :
    (get_tool_definitions (load_tools_from_mcp (.raised "npx not found")) false true none =
      (.error "This event loop is already running", none, false)) ∧
    ((get_tool_definitions (load_tools_from_mcp (.raised "npx not found")) false false none).1 =
        .ok FALLBACK_TOOLS ∨
      (get_tool_definitions (load_tools_from_mcp (.raised "npx not found")) false false none).1 =
        .ok []) := by
  obtain ⟨he, hrest⟩ := claim_C7_fallback_on_failure (.raised "npx not found") rfl
  refine ⟨he, ?_⟩
  rcases hrest with ⟨h1, -⟩ | ⟨h1, -, -⟩
  · exact Or.inl h1
  · exact Or.inr h1

/-- C6 counterexample: if the fetched tool list is empty, the second call
without `force_reload` does not return the cached value — the truthiness
guard `if _cached_tools and not force_reload` treats an empty cached list
as absent, so the MCP server is contacted again and the fresh fetch is
returned. -/
theorem claim_C6_counterexample :
    get_tool_definitions [] false false none = (.ok [], some [], true) ∧
    get_tool_definitions FALLBACK_TOOLS false false (some []) =
      (.ok FALLBACK_TOOLS, some FALLBACK_TOOLS, true) :=
  ⟨rfl, rfl⟩

/-- C6 (amended): for every NONEMPTY fetched tool list, a second call
without `force_reload` returns the identical cached list and performs no
fetch — from any thread, running event loop or not, since the cached
path never touches the loop; `force_reload = true` bypasses the cache
and re-fetches.  An empty fetched list is not retained: the next call
fetches again. -/
theorem claim_C6_cache_behavior (fetch1 fetch2 : List Json) (loop2 : Bool)
    (h : fetch1 ≠ []) :
    get_tool_definitions fetch1 false false none = (.ok fetch1, some fetch1, true) ∧
    get_tool_definitions fetch2 false loop2 (some fetch1) =
      (.ok fetch1, some fetch1, false) ∧
    get_tool_definitions fetch2 true false (some fetch1) =
      (.ok fetch2, some fetch2, true) := by
  refine ⟨rfl, ?_, ?_⟩
  · rw [get_tool_definitions]
    rw [if_pos (by simp [List.isEmpty_iff, h])]
  · rw [get_tool_definitions]
    rw [if_neg (by simp)]
    rfl

/-- Witness for C6 (amended) at the concrete fallback list, with the
cached read performed from inside a running event loop. -/
theorem claim_C6_witness :
    get_tool_definitions FALLBACK_TOOLS false false none =
      (.ok FALLBACK_TOOLS, some FALLBACK_TOOLS, true) ∧
    get_tool_definitions [] false true (some FALLBACK_TOOLS) =
      (.ok FALLBACK_TOOLS, some FALLBACK_TOOLS, false) ∧
    get_tool_definitions [] true false (some FALLBACK_TOOLS) =
      (.ok [], some [], true) :=
  claim_C6_cache_behavior FALLBACK_TOOLS [] true (by simp [FALLBACK_TOOLS])

/-- C10: a call of `get_tool_definitions` that actually fetched and got
the fallback set (any failed fetch from a loop-free thread produces
exactly that; a fetch attempt under a running loop raises and fetches
nothing) leaves the fallback as the cached value; since the fallback is
nonempty, every subsequent call without `force_reload` — from any thread
— returns it without contacting the server, until some caller passes
`force_reload = true`, which re-fetches and replaces the cache. -/
theorem claim_C10_fallback_becomes_cache (outcome : MCPCallOutcome)
    (hfail : load_tools_from_mcp outcome = FALLBACK_TOOLS)
    (cached : Option (List Json)) (force loopb : Bool)
    (hfetched :
      (get_tool_definitions (load_tools_from_mcp outcome) force loopb cached).2.2 = true) :
    (get_tool_definitions (load_tools_from_mcp outcome) force loopb cached).2.1 =
      some FALLBACK_TOOLS ∧
    (∀ (fetch2 : List Json) (loop2 : Bool),
      get_tool_definitions fetch2 false loop2 (some FALLBACK_TOOLS) =
        (.ok FALLBACK_TOOLS, some FALLBACK_TOOLS, false)) ∧
    (∀ fetch2 : List Json,
      get_tool_definitions fetch2 true false (some FALLBACK_TOOLS) =
        (.ok fetch2, some fetch2, true)) := by
  refine ⟨?_, ?_, ?_⟩
  · rw [hfail] at hfetched ⊢
    cases cached with
    | none =>
      cases loopb with
      | false => rfl
      | true => exact absurd hfetched (by rw [get_tool_definitions]; simp)
    | some ts =>
      rw [get_tool_definitions] at hfetched ⊢
      by_cases hc : (!ts.isEmpty && !force) = true
      · rw [if_pos hc] at hfetched
        exact absurd hfetched (by simp)
      · rw [if_neg hc] at hfetched ⊢
        cases loopb with
        | false => rfl
        | true => exact absurd hfetched (by simp)
  · intro fetch2 loop2
    rw [get_tool_definitions]
    rw [if_pos (by simp [List.isEmpty_iff, show FALLBACK_TOOLS ≠ [] from by simp [FALLBACK_TOOLS]])]
  · intro fetch2
    rw [get_tool_definitions]
    rw [if_neg (by simp)]
    rfl

/-- Witness for C10: unreachable server, empty cache, loop-free fetching
call; the cached read afterwards from inside a running event loop. -/
theorem claim_C10_witness :
    (get_tool_definitions (load_tools_from_mcp (.raised "connection refused"))
        false false none).2.1 = some FALLBACK_TOOLS ∧
    get_tool_definitions [] false true (some FALLBACK_TOOLS) =
      (.ok FALLBACK_TOOLS, some FALLBACK_TOOLS, false) := by
  obtain ⟨h1, h2, h3⟩ :=
    claim_C10_fallback_becomes_cache (.raised "connection refused") rfl none false false rfl
  exact ⟨h1, h2 [] true⟩

/-! ## Claims about the conversation memory manager -/


/-- C9: for an existing conversation, `get_conversation_context` returns at
most `max_messages` messages of that conversation, in chronological
(oldest-first) order, and they are the most recent ones: every stored
message of the conversation left out is no newer than every returned
one. -/
theorem claim_C9_context_recent_bounded (config : MemoryConfig)
    (conversations : List ConversationRec) (store : List StoredMsg)
    (cid : String) (conv : ConversationRec)
    (hfind : conversations.find? (fun c => c.id == cid) = some conv) :
    (get_conversation_context config conversations store (some cid)).messages.length ≤
      config.max_messages ∧
    (get_conversation_context config conversations store (some cid)).messages.Pairwise
      (fun a b => a.created_at ≤ b.created_at) ∧
    (∀ m ∈ (get_conversation_context config conversations store (some cid)).messages,
      m.conversation_id = cid) ∧
    ∃ rest : List StoredMsg,
      ((get_conversation_context config conversations store (some cid)).messages ++
          rest).Perm (store.filter (fun m => m.conversation_id == cid)) ∧
      ∀ x ∈ rest, ∀ y ∈ (get_conversation_context config conversations store (some cid)).messages,
        x.created_at ≤ y.created_at := by
  have hmsgs : (get_conversation_context config conversations store (some cid)).messages =
      ((List.insertionSort recentFirst
          (store.filter (fun m => m.conversation_id == cid))).take
        config.max_messages).reverse := by
    rw [get_conversation_context, hfind]
  set filtered := store.filter (fun m => m.conversation_id == cid) with hfil
  set sorted := List.insertionSort recentFirst filtered with hsort
  have hsorted : sorted.Pairwise recentFirst := List.sorted_insertionSort recentFirst filtered
  have hperm : sorted.Perm filtered := List.perm_insertionSort recentFirst filtered
  have hsplit : sorted.take config.max_messages ++ sorted.drop config.max_messages = sorted :=
    List.take_append_drop _ _
  refine ⟨?_, ?_, ?_, sorted.drop config.max_messages, ?_, ?_⟩
  · rw [hmsgs]
    simp [List.length_take]
  · rw [hmsgs]
    rw [List.pairwise_reverse]
    exact (hsorted.sublist (List.take_sublist _ _)).imp (fun h => h)
  · intro m hm
    rw [hmsgs] at hm
    have hmem : m ∈ sorted := List.mem_of_mem_take (List.mem_reverse.mp hm)
    have : m ∈ filtered := hperm.mem_iff.mp hmem
    have := List.of_mem_filter this
    simpa using this
  · rw [hmsgs]
    have h1 : ((sorted.take config.max_messages).reverse ++
        sorted.drop config.max_messages).Perm
        (sorted.take config.max_messages ++ sorted.drop config.max_messages) :=
      List.Perm.append_right _ (List.reverse_perm _)
    rw [hsplit] at h1
    exact h1.trans hperm
  · intro x hx y hy
    rw [hmsgs] at hy
    have hy' : y ∈ sorted.take config.max_messages := List.mem_reverse.mp hy
    have hsorted2 : (sorted.take config.max_messages ++
        sorted.drop config.max_messages).Pairwise recentFirst := by
      rw [hsplit]
      exact hsorted
    exact (List.pairwise_append.mp hsorted2).2.2 y hy' x hx

def w9Conv : ConversationRec := { id := "conv1" }

def w9Store : List StoredMsg :=
  [{ conversation_id := "conv1", role := "user", content := "m1", created_at := 1 },
   { conversation_id := "conv1", role := "assistant", content := "m2", created_at := 2 },
   { conversation_id := "other", role := "user", content := "x", created_at := 3 }]

/-- Witness for C9 at a concrete three-message store. -/
theorem claim_C9_witness :
    (get_conversation_context {} [w9Conv] w9Store (some "conv1")).messages.length ≤ 10 ∧
    (get_conversation_context {} [w9Conv] w9Store (some "conv1")).messages.Pairwise
      (fun a b => a.created_at ≤ b.created_at) :=
  ⟨(claim_C9_context_recent_bounded {} [w9Conv] w9Store "conv1" w9Conv (by rfl)).1,
   (claim_C9_context_recent_bounded {} [w9Conv] w9Store "conv1" w9Conv (by rfl)).2.1⟩

/-! ## Claims about the orchestration loop -/


theorem toolRounds_le_aux (env : ExecEnv) (llm : LLMEnv) :
    ∀ (k it : Nat), MAX_TOOL_ITERATIONS + 1 - it ≤ k → ∀ messages response,
      toolRounds env llm messages response it ≤ MAX_TOOL_ITERATIONS - it := by
  intro k
  induction k with
  | zero =>
    intro it hit messages response
    rw [toolRounds]
    rw [dif_pos (Or.inr (by omega))]
    exact Nat.zero_le _
  | succ k ihk =>
    intro it hit messages response
    rw [toolRounds]
    by_cases hc : response.tool_calls.isEmpty = true ∨ MAX_TOOL_ITERATIONS ≤ it
    · rw [dif_pos hc]
      exact Nat.zero_le _
    · rw [dif_neg hc]
      push_neg at hc
      dsimp only
      refine le_trans (Nat.add_le_add_left (ihk (it + 1) (by omega) _ _) 1) (by omega)

theorem process_eq_final_aux (env : ExecEnv) (llm : LLMEnv) :
    ∀ (k it : Nat), MAX_TOOL_ITERATIONS + 1 - it ≤ k → ∀ messages response,
      process_tool_calls env llm messages response it =
        ((finalResponse env llm messages response it).content,
          (finalResponse env llm messages response it).usage) := by
  intro k
  induction k with
  | zero =>
    intro it hit messages response
    rw [process_tool_calls, finalResponse]
    rw [dif_pos (Or.inr (by omega)), dif_pos (Or.inr (by omega))]
  | succ k ihk =>
    intro it hit messages response
    rw [process_tool_calls, finalResponse]
    by_cases hc : response.tool_calls.isEmpty = true ∨ MAX_TOOL_ITERATIONS ≤ it
    · rw [dif_pos hc, dif_pos hc]
    · rw [dif_neg hc, dif_neg hc]
      push_neg at hc
      exact ihk (it + 1) (by omega) _ _

theorem toolRounds_always_aux (env : ExecEnv) (llm : LLMEnv)
    (hllm : ∀ b ms, ((llm b ms).tool_calls).isEmpty = false) :
    ∀ (k it : Nat), MAX_TOOL_ITERATIONS + 1 - it ≤ k → ∀ messages response,
      response.tool_calls.isEmpty = false →
      toolRounds env llm messages response it = MAX_TOOL_ITERATIONS - it := by
  intro k
  induction k with
  | zero =>
    intro it hit messages response hresp
    rw [toolRounds, dif_pos (Or.inr (by omega))]
    omega
  | succ k ihk =>
    intro it hit messages response hresp
    rw [toolRounds]
    by_cases hit2 : MAX_TOOL_ITERATIONS ≤ it
    · rw [dif_pos (Or.inr hit2)]
      omega
    · rw [dif_neg (by simp [hresp, hit2])]
      dsimp only
      rw [ihk (it + 1) (by omega) _ _ (hllm _ _)]
      omega

/-- C1: the tool-calling recursion `process_tool_calls` performs at most
`MAX_TOOL_ITERATIONS` (10) tool-execution rounds; it always terminates
returning the content and the usage of the last LLM response (possibly the
empty string); and for an LLM that answers every request with further tool
calls it performs exactly 10 rounds before cutting off. -/
theorem claim_C1_loop_bounded (env : ExecEnv) (llm : LLMEnv)
    (messages : List Msg) (response : LLMResponse) :
    toolRounds env llm messages response 0 ≤ MAX_TOOL_ITERATIONS ∧
    process_tool_calls env llm messages response 0 =
      ((finalResponse env llm messages response 0).content,
        (finalResponse env llm messages response 0).usage) ∧
    ((∀ b ms, ((llm b ms).tool_calls).isEmpty = false) →
      response.tool_calls.isEmpty = false →
        toolRounds env llm messages response 0 = MAX_TOOL_ITERATIONS) := by
  refine ⟨?_, ?_, ?_⟩
  · simpa using toolRounds_le_aux env llm (MAX_TOOL_ITERATIONS + 1) 0 (by omega)
      messages response
  · exact process_eq_final_aux env llm (MAX_TOOL_ITERATIONS + 1) 0 (by omega)
      messages response
  · intro hllm hresp
    simpa using toolRounds_always_aux env llm hllm (MAX_TOOL_ITERATIONS + 1) 0 (by omega)
      messages response hresp

def c1Env : ExecEnv := fun _ _ => .ok { success := true, data := some (Json.str "ok") }

def c1Call : ToolCall :=
  { id := "a",
    function := { name := "search_nodes", arguments := ArgPayload.str "\x7b\x7d" } }

def c1Resp : LLMResponse :=
  { content := "", tool_calls := [c1Call],
    usage := { prompt_tokens := 5, completion_tokens := 5, total_tokens := 10 } }

def c1LLM : LLMEnv := fun _ _ => c1Resp

/-- Witness for C1: a tool server that always succeeds and an LLM that
always asks for another tool call drive the loop to exactly the bound. -/
theorem claim_C1_witness :
    toolRounds c1Env c1LLM [] c1Resp 0 = MAX_TOOL_ITERATIONS :=
  (claim_C1_loop_bounded c1Env c1LLM [] c1Resp).2.2
    (fun b ms => by simp [c1LLM, c1Resp]) (by simp [c1Resp])


def c2Call : ToolCall :=
  { id := "tc1",
    function := { name := "search_nodes", arguments := ArgPayload.str "\x7b\x7d" } }

def c2Resp0 : LLMResponse :=
  { content := "", tool_calls := [c2Call],
    usage := { prompt_tokens := 1, completion_tokens := 1, total_tokens := 2 } }

def c2Resp1 : LLMResponse :=
  { content := "done", tool_calls := [],
    usage := { prompt_tokens := 10, completion_tokens := 10, total_tokens := 20 } }

def c2Env : ExecEnv := fun _ _ => .ok { success := true, data := some (Json.str "ok") }

def c2LLM : LLMEnv := fun _ _ => c2Resp1

/-- C2: the usage accumulation is dropped.  A two-round run (first response
carries one tool call and usage (1,1,2); second response is final with
usage (10,10,20)) returns only the second response's usage, not the
component-wise sum (11,11,22) of the individually reported usages — even
though the code's own `# Accumulate usage` block computes that sum before
discarding it with the recursive call. -/
theorem claim_C2_usage_not_accumulated :
    process_tool_calls c2Env c2LLM [] c2Resp0 0 =
      ("done", { prompt_tokens := 10, completion_tokens := 10, total_tokens := 20 }) ∧
    roundUsages c2Env c2LLM [] c2Resp0 0 =
      [{ prompt_tokens := 1, completion_tokens := 1, total_tokens := 2 },
       { prompt_tokens := 10, completion_tokens := 10, total_tokens := 20 }] ∧
    usageSum (roundUsages c2Env c2LLM [] c2Resp0 0) =
      { prompt_tokens := 11, completion_tokens := 11, total_tokens := 22 } ∧
    (process_tool_calls c2Env c2LLM [] c2Resp0 0).2 ≠
      usageSum (roundUsages c2Env c2LLM [] c2Resp0 0) := by
  have h1 : process_tool_calls c2Env c2LLM [] c2Resp0 0 =
      ("done", { prompt_tokens := 10, completion_tokens := 10, total_tokens := 20 }) := by
    rw [process_tool_calls]
    rw [dif_neg (by simp [c2Resp0, MAX_TOOL_ITERATIONS])]
    dsimp only
    rw [process_tool_calls]
    rw [dif_pos (Or.inl (by simp [c2LLM, c2Resp1]))]
    simp [c2LLM, c2Resp1]
  have h2 : roundUsages c2Env c2LLM [] c2Resp0 0 =
      [{ prompt_tokens := 1, completion_tokens := 1, total_tokens := 2 },
       { prompt_tokens := 10, completion_tokens := 10, total_tokens := 20 }] := by
    rw [roundUsages]
    rw [dif_neg (by simp [c2Resp0, MAX_TOOL_ITERATIONS])]
    dsimp only
    rw [roundUsages]
    rw [dif_pos (Or.inl (by simp [c2LLM, c2Resp1]))]
    simp [c2LLM, c2Resp1, c2Resp0]
  have h3 : usageSum (roundUsages c2Env c2LLM [] c2Resp0 0) =
      { prompt_tokens := 11, completion_tokens := 11, total_tokens := 22 } := by
    rw [h2]
    decide
  refine ⟨h1, h2, h3, ?_⟩
  rw [h1, h3]
  decide

/-! ## Claims about the streaming multiplexer -/


/-- Concatenation of the text carried by the content events of a list. -/
def contentConcat : List Event → String
  | [] => ""
  | Event.content s :: es => s ++ contentConcat es
  | Event.status _ :: es => contentConcat es
  | Event.done _ _ :: es => contentConcat es
  | Event.error _ :: es => contentConcat es

/-- No terminating or error event occurs in the list. -/
def noDoneErr (es : List Event) : Prop :=
  ∀ e ∈ es, (∀ cid t, e ≠ Event.done cid t) ∧ (∀ m, e ≠ Event.error m)

theorem noDoneErr_nil : noDoneErr [] := by
  intro e he
  cases he

theorem noDoneErr_append {as bs : List Event} (ha : noDoneErr as) (hb : noDoneErr bs) :
    noDoneErr (as ++ bs) := by
  intro e he
  rcases List.mem_append.mp he with h | h
  · exact ha e h
  · exact hb e h

theorem noDoneErr_content (s : String) : noDoneErr [Event.content s] := by
  intro e he
  rw [List.mem_singleton] at he
  subst he
  exact ⟨fun _ _ h => Event.noConfusion h, fun _ h => Event.noConfusion h⟩

theorem noDoneErr_status (m : String) : noDoneErr [Event.status m] := by
  intro e he
  rw [List.mem_singleton] at he
  subst he
  exact ⟨fun _ _ h => Event.noConfusion h, fun _ h => Event.noConfusion h⟩

theorem contentConcat_append (as bs : List Event) :
    contentConcat (as ++ bs) = contentConcat as ++ contentConcat bs := by
  induction as with
  | nil => rw [List.nil_append, contentConcat, String.empty_append]
  | cons e es ih =>
    cases e with
    | content s =>
      rw [List.cons_append, contentConcat, contentConcat, ih, String.append_assoc]
    | status m => rw [List.cons_append, contentConcat, contentConcat, ih]
    | done c t => rw [List.cons_append, contentConcat, contentConcat, ih]
    | error m => rw [List.cons_append, contentConcat, contentConcat, ih]

theorem contentConcat_chunks (cs : List Char) :
    contentConcat ((chunksOf20 cs).map fun c => Event.content ⟨c⟩) = (⟨cs⟩ : String) := by
  rw [chunksOf20]
  by_cases h : cs = []
  · rw [dif_pos h, h]
    rfl
  · rw [dif_neg h, List.map_cons, contentConcat, contentConcat_chunks (cs.drop 20)]
    rw [show ((⟨cs.take 20⟩ : String) ++ (⟨cs.drop 20⟩ : String)) =
      (⟨cs.take 20 ++ cs.drop 20⟩ : String) from rfl]
    rw [List.take_append_drop]
termination_by cs.length
decreasing_by
  have hpos : 0 < cs.length := List.length_pos.mpr h
  rw [List.length_drop]
  omega

theorem streamFold_spec (lines : List String) :
    ∀ full total,
      (streamFold lines full total).2.1 =
        full ++ contentConcat (streamFold lines full total).1 ∧
      noDoneErr (streamFold lines full total).1 := by
  induction lines with
  | nil =>
    intro full total
    refine ⟨?_, noDoneErr_nil⟩
    rw [streamFold, contentConcat, String.append_empty]
  | cons line lines ih =>
    intro full total
    rw [streamFold]
    cases he : lineEffect line with
    | stop =>
      refine ⟨?_, noDoneErr_nil⟩
      rw [contentConcat, String.append_empty]
    | skip => exact ih full total
    | chunkData contentOpt usageOpt =>
      dsimp only
      cases contentOpt with
      | none =>
        dsimp only
        obtain ⟨h1, h2⟩ := ih full (total + usageOpt.getD 0)
        cases hsf : streamFold lines full (total + usageOpt.getD 0) with
        | mk evs rest =>
          rw [hsf] at h1 h2
          dsimp only at h1 h2 ⊢
          exact ⟨by rw [List.nil_append]; exact h1, by rw [List.nil_append]; exact h2⟩
      | some s =>
        dsimp only
        obtain ⟨h1, h2⟩ := ih (full ++ s) (total + usageOpt.getD 0)
        cases hsf : streamFold lines (full ++ s) (total + usageOpt.getD 0) with
        | mk evs rest =>
          rw [hsf] at h1 h2
          dsimp only at h1 h2 ⊢
          constructor
          · rw [contentConcat_append, contentConcat, contentConcat, String.append_empty,
              ← String.append_assoc]
            exact h1
          · exact noDoneErr_append (noDoneErr_content s) h2
      

theorem finalStream_spec (env : StreamEnv) (msgs : List Msg) (full : String) (total : Int)
    (events : List Event) :
    ∃ newEvs full2 total3,
      finalStream env msgs full total events =
        { events := (events ++ newEvs) ++ [Event.done env.conversationId total3],
          saved := [(full2, total3)],
          deductions := if total3 = 0 then [] else [Int.fdiv total3 10] } ∧
      noDoneErr newEvs ∧ full2 = full ++ contentConcat newEvs := by
  obtain ⟨h1, h2⟩ := streamFold_spec (env.streamLines msgs) full total
  refine ⟨(streamFold (env.streamLines msgs) full total).1,
    (streamFold (env.streamLines msgs) full total).2.1,
    (if (streamFold (env.streamLines msgs) full total).2.2 = 0 then
      estimateTokens (streamFold (env.streamLines msgs) full total).2.1 msgs
    else (streamFold (env.streamLines msgs) full total).2.2), ?_, h2, h1⟩
  rw [finalStream]


theorem string_append_ne_empty (a b : String) (hb : b ≠ "") : a ++ b ≠ "" := by
  intro h
  apply hb
  have hd : (a ++ b).data = [] := by rw [h]
  rw [show (a ++ b).data = a.data ++ b.data from rfl] at hd
  have := (List.append_eq_nil.mp hd).2
  cases b with
  | mk data => rw [show (String.mk data).data = data from rfl] at this; rw [this]

theorem chatStreamLoop_spec (env : StreamEnv)
    (hok : ∀ ms, (env.respond ms).status = 200) :
    ∀ (k it : Nat), MAX_TOOL_ITERATIONS + 1 - it ≤ k →
      ∀ messages full total events,
        ∃ newEvs full2 total3,
          chatStreamLoop env messages it full total events =
            { events := (events ++ newEvs) ++ [Event.done env.conversationId total3],
              saved := [(full2, total3)],
              deductions := if total3 = 0 then [] else [Int.fdiv total3 10] } ∧
          noDoneErr newEvs ∧ full2 = full ++ contentConcat newEvs := by
  intro k
  induction k with
  | zero =>
    intro it hit messages full total events
    rw [chatStreamLoop, dif_pos (by omega : MAX_TOOL_ITERATIONS ≤ it)]
    exact finalStream_spec env _ full total events
  | succ k ihk =>
    intro it hit messages full total events
    rw [chatStreamLoop]
    by_cases hmax : MAX_TOOL_ITERATIONS ≤ it
    · rw [dif_pos hmax]
      exact finalStream_spec env _ full total events
    · rw [dif_neg hmax]
      dsimp only
      rw [if_neg (by rw [hok messages]; simp)]
      by_cases hcont : (env.respond messages).response.content = ""
      · have hcne : ¬((env.respond messages).response.content ≠ "") := by simp [hcont]
        rw [if_neg hcne, if_neg hcne]
        by_cases htc : (env.respond messages).response.tool_calls.isEmpty = true
        · rw [if_pos htc]
          by_cases hfull : full = ""
          · rw [if_neg (by simp [hfull])]
            obtain ⟨newEvs, full2, total3, heq, hnd, hfull2⟩ :=
              finalStream_spec env messages full
                (total + (env.respond messages).response.usage.total_tokens) events
            exact ⟨newEvs, full2, total3, heq, hnd, hfull2⟩
          · rw [if_pos hfull]
            refine ⟨[], full, total + (env.respond messages).response.usage.total_tokens,
              ?_, noDoneErr_nil, by rw [contentConcat, String.append_empty]⟩
            rw [List.append_nil]
        · rw [if_neg htc]
          obtain ⟨newEvs, full2, total3, heq, hnd, hfull2⟩ := ihk (it + 1) (by omega)
            ((messages ++
              [{ role := "assistant", content := (env.respond messages).response.content,
                 tool_calls := (env.respond messages).response.tool_calls }]) ++
              (execute_tool_calls env.exec
                (env.respond messages).response.tool_calls).map ToolCallResult.to_message)
            full (total + (env.respond messages).response.usage.total_tokens)
            (events ++ [Event.status (statusMsg it)])
          refine ⟨[Event.status (statusMsg it)] ++ newEvs, full2, total3, ?_, ?_, ?_⟩
          · rw [heq]
            simp [List.append_assoc]
          · exact noDoneErr_append (noDoneErr_status _) hnd
          · rw [hfull2, contentConcat_append, contentConcat, contentConcat,
              String.empty_append]
      · have hcp : (env.respond messages).response.content ≠ "" := hcont
        rw [if_pos hcp, if_pos hcp]
        by_cases htc : (env.respond messages).response.tool_calls.isEmpty = true
        · rw [if_pos htc]
          rw [if_pos (string_append_ne_empty full _ hcont)]
          refine ⟨(chunksOf20 (env.respond messages).response.content.data).map
              (fun c => Event.content ⟨c⟩),
            full ++ (env.respond messages).response.content,
            total + (env.respond messages).response.usage.total_tokens, rfl, ?_, ?_⟩
          · intro e he
            rw [List.mem_map] at he
            obtain ⟨c, -, hc⟩ := he
            subst hc
            exact ⟨fun _ _ h => Event.noConfusion h, fun _ h => Event.noConfusion h⟩
          · rw [contentConcat_chunks]
        · rw [if_neg htc]
          obtain ⟨newEvs, full2, total3, heq, hnd, hfull2⟩ := ihk (it + 1) (by omega)
            ((messages ++
              [{ role := "assistant", content := (env.respond messages).response.content,
                 tool_calls := (env.respond messages).response.tool_calls }]) ++
              (execute_tool_calls env.exec
                (env.respond messages).response.tool_calls).map ToolCallResult.to_message)
            (full ++ (env.respond messages).response.content)
            (total + (env.respond messages).response.usage.total_tokens)
            ((events ++ (chunksOf20 (env.respond messages).response.content.data).map
                (fun c => Event.content ⟨c⟩)) ++ [Event.status (statusMsg it)])
          refine ⟨((chunksOf20 (env.respond messages).response.content.data).map
              (fun c => Event.content ⟨c⟩) ++ [Event.status (statusMsg it)]) ++ newEvs,
            full2, total3, ?_, ?_, ?_⟩
          · rw [heq]
            simp [List.append_assoc]
          · refine noDoneErr_append (noDoneErr_append ?_ (noDoneErr_status _)) hnd
            intro e he
            rw [List.mem_map] at he
            obtain ⟨c, -, hc⟩ := he
            subst hc
            exact ⟨fun _ _ h => Event.noConfusion h, fun _ h => Event.noConfusion h⟩
          · rw [hfull2, contentConcat_append, contentConcat_append, contentConcat,
              contentConcat, String.append_empty, contentConcat_chunks,
              ← String.append_assoc]


/-- The environment of the C5 counterexample: the LLM's first response has
content `"hi"`, no tool calls, and reports zero tokens. -/
def c5Env : StreamEnv :=
  { exec := fun _ _ => .ok { success := true },
    respond := fun _ => { status := 200, response := { content := "hi" } },
    streamLines := fun _ => [],
    mcp_enabled := true,
    conversationId := "conv-z",
    api_messages := [] }

/-- C5 counterexample to the claim as stated: a run that completes
normally persists exactly one assistant message and emits exactly one
`done` event, but applies NO credit deduction, because the deduction is
guarded by `if total_tokens:` and the reported total is zero. -/
theorem claim_C5_counterexample :
    generate c5Env =
      { events := [Event.content "hi", Event.done "conv-z" 0],
        saved := [("hi", 0)],
        deductions := [] } := by
  rw [generate, if_pos (show c5Env.mcp_enabled = true from rfl)]
  rw [chatStreamLoop, dif_neg (show ¬ MAX_TOOL_ITERATIONS ≤ 0 from by decide)]
  dsimp only
  rw [if_neg (show ¬ (c5Env.respond c5Env.api_messages).status ≠ 200 from by decide)]
  rw [if_pos (show (c5Env.respond c5Env.api_messages).response.content ≠ "" from by decide)]
  rw [if_pos (show (c5Env.respond c5Env.api_messages).response.content ≠ "" from by decide)]
  rw [if_pos (show ((c5Env.respond c5Env.api_messages).response.tool_calls).isEmpty = true
    from by decide)]
  rw [if_pos (show ("" : String) ++ (c5Env.respond c5Env.api_messages).response.content ≠ ""
    from by decide)]
  have hchunks : chunksOf20 ((c5Env.respond c5Env.api_messages).response.content).data =
      [['h', 'i']] := by
    rw [chunksOf20, dif_neg (by decide)]
    rw [chunksOf20, dif_pos (by decide)]
    decide
  rw [hchunks]
  decide

/-- C5 (amended): a streaming request that completes without an unhandled
failure persists exactly one assistant message, carrying the full
concatenated response text (exactly the text of the emitted content
events) and the final token total; it emits exactly one terminating `done`
event (with the conversation id and the total) as the last event, no
`error` event, and applies the credit deduction `total // 10` exactly once
when the total is nonzero — and not at all when the total is zero. -/
theorem claim_C5_single_persist_single_done (env : StreamEnv)
    (hok : ∀ ms, (env.respond ms).status = 200) :
    ∃ evs full total,
      generate env =
        { events := evs ++ [Event.done env.conversationId total],
          saved := [(full, total)],
          deductions := if total = 0 then [] else [Int.fdiv total 10] } ∧
      noDoneErr evs ∧ full = contentConcat evs := by
  rw [generate]
  by_cases hmcp : env.mcp_enabled = true
  · rw [if_pos hmcp]
    obtain ⟨newEvs, full2, total3, heq, hnd, hfull2⟩ :=
      chatStreamLoop_spec env hok (MAX_TOOL_ITERATIONS + 1) 0 (by omega)
        env.api_messages "" 0 []
    refine ⟨newEvs, full2, total3, ?_, hnd, ?_⟩
    · rw [heq, List.nil_append]
    · rw [hfull2, String.empty_append]
  · rw [if_neg hmcp]
    obtain ⟨newEvs, full2, total3, heq, hnd, hfull2⟩ :=
      finalStream_spec env env.api_messages "" 0 []
    refine ⟨newEvs, full2, total3, ?_, hnd, ?_⟩
    · rw [heq, List.nil_append]
    · rw [hfull2, String.empty_append]

/-- Witness for C5 (amended) at a concrete environment whose final
streamed call reports 40 total tokens. -/
def c5wEnv : StreamEnv :=
  { exec := fun _ _ => .ok { success := true },
    respond := fun _ => { status := 200, response := {} },
    streamLines := fun _ => [],
    mcp_enabled := false,
    conversationId := "conv-w",
    api_messages := [{ role := "user", content := "hello there, how do I send an email?" }] }

theorem claim_C5_witness :
    ∃ evs full total,
      generate c5wEnv =
        { events := evs ++ [Event.done "conv-w" total],
          saved := [(full, total)],
          deductions := if total = 0 then [] else [Int.fdiv total 10] } ∧
      noDoneErr evs ∧ full = contentConcat evs :=
  claim_C5_single_persist_single_done c5wEnv (fun _ => rfl)

end N8n



